import Mathlib

/-!
# Verification of the NachOS cooperative threading core

Shallow embedding of the thread scheduler of this repository
(`threads/scheduler.cc` and `threads/thread.cc`), together with proofs
about the scheduling operations.  Threads are identified by their `pid`
(a `Nat`); the kernel's intrusive lists become Lean `List`s of pids, and
the global scheduler state becomes an explicit record that each
operation transforms.  The context-transfer primitive (`_SWITCH`) is an
excluded, opaque step; we record it as an abstract event so that the
ordering between the transfer and thread destruction can be stated.
-/

namespace NachOS

/-- Thread lifecycle states, from `thread.h`'s `ThreadStatus`
(`JUST_CREATED`, `READY`, `RUNNING`, `BLOCKED`). -/
inductive ThreadStatus where
  | JUST_CREATED
  | READY
  | RUNNING
  | BLOCKED
deriving DecidableEq, Repr

/-!
## The sleeping-thread list (`scheduler.cc`)

`NachOSscheduler::RemoveSleepingThread` removes the first list element
(`List::Remove`), compares pids, and otherwise rotates the list
(append the element at the tail, remove the next head) until either the
target pid is found or the starting element comes around again.  On an
empty list, `List::Remove` yields `NULL` and the very next step
dereferences it (`current->getPID()`); we model that dereference as
`Except.error ()`.
-/

/-- The `do { ... } while (start->getPID() != current->getPID())` loop of
`NachOSscheduler::RemoveSleepingThread`.  The scheduler's queue at this
point is `pending ++ [start] ++ passed`: `pending` holds the elements not
yet examined in this rotation, `start` is the element removed first and
appended back, and `passed` holds the already re-appended elements.
Each iteration removes the queue's head, returns it if its pid matches
`target`, and otherwise appends it at the tail; the loop stops once the
removed element's pid equals `start`'s pid. -/
def rotScan (start target : Nat) : List Nat → List Nat → Option Nat × List Nat
  | [], passed =>
      -- head of the queue is `start` itself: remove, compare, append, stop
      if start = target then (some start, passed)
      else (none, passed ++ [start])
  | c :: rest, passed =>
      if c = target then (some c, rest ++ start :: passed)
      else if c = start then (none, rest ++ start :: (passed ++ [c]))
      else rotScan start target rest (passed ++ [c])

/-- `NachOSscheduler::RemoveSleepingThread`, on the sleeping list `l`
(head = front of the kernel `List`) with the argument thread's pid
`target`.  Returns the removed pid (or `none` for "not found") together
with the resulting list; `Except.error ()` is the `NULL` dereference the
code performs when `List::Remove` on an empty list returns `NULL`. -/
def RemoveSleepingThread (l : List Nat) (target : Nat) :
    Except Unit (Option Nat × List Nat) :=
  match l with
  | [] => .error ()     -- current == NULL; current->getPID() faults
  | a :: rest =>
      if a = target then .ok (some a, rest)
      else .ok (rotScan a target rest [])

/-- `NachOSscheduler::InsertSleepingThread`: append at the tail. -/
def InsertSleepingThread (l : List Nat) (t : Nat) : List Nat := l ++ [t]

/-- `NachOSscheduler::IsSleepingListEmpty`. -/
def IsSleepingListEmpty (l : List Nat) : Bool := l.isEmpty

/-!
## Per-thread statistics and the policy globals (`thread.cc`)

`NachOSThread::UpdateStats` reads the global tick counter and a family of
global per-pid arrays (`prevBurst`, `threadCpuCount`, `threadPriority`,
`threadBasePriority`, `exitThreadArray`, `burstPredict`) plus the global
`schedAlgo` selector and `stats->EstimationError`.  The arrays and the
constants `MAX_THREAD_COUNT`, `BASE_PRIORITY` and `SJP_RATIO` are declared
in headers that are not part of the sources here, so the array index type
is `Nat` and the bound and smoothing ratio are parameters (`maxTC`,
`alpha`).  Modelled from the spec: the burst-prediction values form an
exponential moving average with a fixed smoothing constant, so
`burstPredict` and the accumulated estimation error are rationals; all
burst counters are the C code's `unsigned` values, modelled as `Nat`. -/

/-- The statistics fields of one TCB (`NachOSThread` members). -/
structure TCBStats where
  startTime : Nat
  prevstartTime : Nat
  totalCPUburst : Nat
  maxCPUburst : Nat
  minCPUburst : Nat
  numCPUburst : Nat
  sleepTime : Nat
  sleepstartTime : Nat
  instructionCount : Nat
deriving DecidableEq, Repr

/-- The global scheduling/statistics state read and written by
`NachOSThread::UpdateStats` (per-pid arrays as functions). -/
structure Globals where
  totalTicks : Nat
  schedAlgo : Nat
  prevBurst : Nat → Nat
  threadCpuCount : Nat → Nat
  threadPriority : Nat → Nat
  threadBasePriority : Nat → Nat
  exitThreadArray : Nat → Bool
  burstPredict : Nat → ℚ
  EstimationError : ℚ

/-- The `if (cpuburst>0)` block of `NachOSThread::UpdateStats`:
record the burst in `prevBurst[pid]`, bump the burst counter and total,
and update the extrema (`if (cpuburst > maxCPUburst) ... else if
(cpuburst < minCPUburst) ...`). -/
def updateBurstStats (pid : Nat) (t : TCBStats) (g : Globals) :
    TCBStats × Globals :=
  let cpuburst := g.totalTicks - t.prevstartTime
  if 0 < cpuburst then
    ({ t with
        numCPUburst := t.numCPUburst + 1
        totalCPUburst := t.totalCPUburst + cpuburst
        maxCPUburst := if t.maxCPUburst < cpuburst then cpuburst else t.maxCPUburst
        minCPUburst :=
          if t.maxCPUburst < cpuburst then t.minCPUburst
          else if cpuburst < t.minCPUburst then cpuburst else t.minCPUburst },
     { g with prevBurst := Function.update g.prevBurst pid cpuburst })
  else (t, g)

/-- One iteration of the decay-priority loop of `UpdateStats`
(`schedAlgo >= 7`): for index `i`, if `!(exitThreadArray[i]) &&
prevBurst[i] >= 0 && threadBasePriority[i] != 0` then fold the last burst
into the cpu-count estimate, recompute the priority and reset the burst.
(`prevBurst[i] >= 0` is identically true for the unsigned model but is
kept from the source condition.) -/
def decayStep (g : Globals) (i : Nat) : Globals :=
  if g.exitThreadArray i = false ∧ 0 ≤ g.prevBurst i ∧ g.threadBasePriority i ≠ 0 then
    let c := (g.threadCpuCount i + g.prevBurst i) / 2
    { g with
        threadCpuCount := Function.update g.threadCpuCount i c
        threadPriority := Function.update g.threadPriority i (g.threadBasePriority i + c / 2)
        prevBurst := Function.update g.prevBurst i 0 }
  else g

/-- The `for (i=0; i<MAX_THREAD_COUNT; i++)` decay loop. -/
def decayAll (maxTC : Nat) (g : Globals) : Globals :=
  (List.range maxTC).foldl decayStep g

/-- The `schedAlgo == 2` (shortest-job-prediction) branch of
`UpdateStats`: accumulate the estimation error as the absolute difference
between prediction and actual burst, then fold the last burst into the
prediction.  `alpha` models the SJP smoothing constant of the missing
header. -/
def sjpUpdate (alpha : ℚ) (pid cpuburst : Nat) (g : Globals) : Globals :=
  let ee :=
    if (cpuburst : ℚ) < g.burstPredict pid then
      g.EstimationError + (g.burstPredict pid - (cpuburst : ℚ))
    else
      g.EstimationError + (-(g.burstPredict pid) + (cpuburst : ℚ))
  { g with
      EstimationError := ee
      burstPredict := Function.update g.burstPredict pid
        ((1 - alpha) * g.burstPredict pid + alpha * (g.prevBurst pid : ℚ)) }

/-- The policy dispatch at the end of `UpdateStats`:
`if (schedAlgo >= 7) ... else if (schedAlgo == 2) ...`. -/
def applySchedPolicy (maxTC : Nat) (alpha : ℚ) (pid cpuburst : Nat)
    (g : Globals) : Globals :=
  if 7 ≤ g.schedAlgo then decayAll maxTC g
  else if g.schedAlgo = 2 then sjpUpdate alpha pid cpuburst g
  else g

/-- `NachOSThread::UpdateStats`, acting on the calling thread's statistics
(the code asserts `this == currentThread`) and the globals. -/
def UpdateStats (maxTC : Nat) (alpha : ℚ) (pid : Nat) (t : TCBStats)
    (g : Globals) : TCBStats × Globals :=
  let cpuburst := g.totalTicks - t.prevstartTime
  let p := updateBurstStats pid t g
  (p.1, applySchedPolicy maxTC alpha pid cpuburst p.2)

/-!
## The global scheduler state and the lifecycle operations

Threads are referenced by pid.  `live` is the set of allocated
(not-yet-`delete`d) TCBs, `readyList` the scheduler's ready queue,
`sleepList` its sleeping-thread list, `waitQueue` the time-sorted wait
queue (`sleepQueueHead`, as `(pid, wakeDeadline)` pairs), `current` the
`currentThread` pointer and `toBeDestroyed` the `threadToBeDestroyed`
pointer.  The `_SWITCH` context transfer and TCB destruction are recorded
as abstract events so that their order can be stated. -/

/-- Lifecycle and parent/child bookkeeping fields of one TCB. -/
structure TCBInfo where
  status : ThreadStatus
  ppid : Int
  childpids : List Nat
  childExited : Nat → Bool
  childExitCode : Nat → Int
  waitchild : Int

/-- Abstract events emitted by `NachOSscheduler::Schedule`: the machine
level context transfer (`_SWITCH`) and the `delete threadToBeDestroyed`. -/
inductive Event where
  | contextSwitch (old next : Nat)
  | destroy (t : Nat)
deriving DecidableEq, Repr

/-- The global scheduler state. -/
structure SchedState where
  live : List Nat
  info : Nat → TCBInfo
  stats : Nat → TCBStats
  glob : Globals
  readyList : List Nat
  sleepList : List Nat
  waitQueue : List (Nat × Nat)
  current : Nat
  toBeDestroyed : Option Nat

/-- `thread->setStatus(st)`. -/
def setStatus (p : Nat) (st : ThreadStatus) (s : SchedState) : SchedState :=
  { s with info := Function.update s.info p { s.info p with status := st } }

/-- `NachOSscheduler::ThreadIsReadyToRun`: set the thread's status to
`READY` and append it at the tail of the ready list. -/
def ThreadIsReadyToRun (t : Nat) (s : SchedState) : SchedState :=
  { s with
      info := Function.update s.info t { s.info t with status := .READY }
      readyList := s.readyList ++ [t] }

/-- `NachOSscheduler::FindNextThreadToRun`: remove and return the head of
the ready list, or `none` if it is empty. -/
def FindNextThreadToRun (s : SchedState) : Option Nat × SchedState :=
  match s.readyList with
  | [] => (none, s)
  | n :: rest => (some n, { s with readyList := rest })

/-- `NachOSscheduler::Schedule`: make `nextThread` the current, running
thread, perform the `_SWITCH` context transfer, and afterwards delete
`threadToBeDestroyed` if one is pending.  (`oldThread->CheckOverflow()`
checks the stack sentinel before the transfer; the stack image is the
excluded opaque context, so the check has no effect on this state.)
Returns the new state together with the emitted event trace, in program
order. -/
def Schedule (next : Nat) (s : SchedState) : SchedState × List Event :=
  let old := s.current
  let s1 := { s with
      current := next
      info := Function.update s.info next { s.info next with status := .RUNNING } }
  match s1.toBeDestroyed with
  | some t =>
      ({ s1 with live := s1.live.erase t, toBeDestroyed := none },
       [.contextSwitch old next, .destroy t])
  | none => (s1, [.contextSwitch old next])

/-- `UpdateStats()` as invoked by the current thread, lifted to the global
state. -/
def updateStatsS (maxTC : Nat) (alpha : ℚ) (s : SchedState) : SchedState :=
  let p := UpdateStats maxTC alpha s.current (s.stats s.current) s.glob
  { s with stats := Function.update s.stats s.current p.1, glob := p.2 }

/-- `NachOSThread::YieldCPU`: update statistics, append the caller (the
current thread) at the ready-list tail, then unconditionally schedule the
head of the ready list (the `if (nextThread != NULL)` guard is commented
out in the source; `Schedule(NULL)` would dereference `NULL`, modelled as
`Except.error ()`). -/
def YieldCPU (maxTC : Nat) (alpha : ℚ) (s : SchedState) :
    Except Unit SchedState :=
  let s1 := updateStatsS maxTC alpha s
  let s2 := ThreadIsReadyToRun s1.current s1
  match FindNextThreadToRun s2 with
  | (none, _) => .error ()
  | (some n, s3) => .ok (Schedule n s3).1

/-- Outcome of `NachOSThread::PutThreadToSleep`: either a next thread was
dispatched (with the `Schedule` event trace), or the ready list is empty
and the CPU idles (`interrupt->Idle()` loop) until an external interrupt
readies a thread. -/
inductive SleepRes where
  | dispatched (s : SchedState) (tr : List Event)
  | idleWait (s : SchedState)

/-- The statement sequence of `NachOSThread::PutThreadToSleep` before the
dispatch loop: update statistics, record
`sleepstartTime = stats->totalTicks`, set `status = BLOCKED`. -/
def sleepPrep (maxTC : Nat) (alpha : ℚ) (s : SchedState) : SchedState :=
  let s1 := updateStatsS maxTC alpha s
  let s2 := { s1 with
      stats := Function.update s1.stats s1.current
        { s1.stats s1.current with sleepstartTime := s1.glob.totalTicks } }
  setStatus s2.current .BLOCKED s2

/-- `NachOSThread::PutThreadToSleep`: update statistics, record the sleep
start time, mark the caller `BLOCKED` (`sleepPrep`), then dispatch the
next ready thread (idling while none exists).  Note: no queue insertion
happens here; the caller is responsible for any wait-structure
enqueuing. -/
def PutThreadToSleep (maxTC : Nat) (alpha : ℚ) (s : SchedState) : SleepRes :=
  match FindNextThreadToRun (sleepPrep maxTC alpha s) with
  | (none, s4) => .idleWait s4
  | (some n, s4) =>
      let p := Schedule n s4
      .dispatched p.1 p.2

/-- `NachOSThread::FinishThread`: set `threadToBeDestroyed` to the current
thread, then take the sleep path (never returns in the source). -/
def FinishThread (maxTC : Nat) (alpha : ℚ) (s : SchedState) : SleepRes :=
  PutThreadToSleep maxTC alpha { s with toBeDestroyed := some s.current }

/-- `NachOSThread::SetChildExitCode`, invoked on parent `p` by an exiting
child with pid `childpid`: find the child's slot (`ASSERT(i < childcount)`
modelled as `Except.error ()` when no slot matches), record the exit code
and the exited flag, and if the parent was waiting exactly on this child
(`waitchild_id == i`) clear the wait and make the parent ready. -/
def SetChildExitCode (p childpid : Nat) (ecode : Int) (s : SchedState) :
    Except Unit SchedState :=
  let inf := s.info p
  match inf.childpids.findIdx? (· == childpid) with
  | none => .error ()
  | some i =>
      let inf2 := { inf with
          childExitCode := Function.update inf.childExitCode i ecode
          childExited := Function.update inf.childExited i true }
      if inf.waitchild = (i : Int) then
        .ok (ThreadIsReadyToRun p
          { s with info := Function.update s.info p { inf2 with waitchild := -1 } })
      else
        .ok { s with info := Function.update s.info p inf2 }

/-- Outcome of `NachOSThread::Exit`: a next thread was dispatched, or the
ready list is empty and the machine halts (`terminateSim`) or idles. -/
inductive ExitRes where
  | dispatched (s : SchedState) (tr : List Event)
  | halted (s : SchedState)
  | idleWait (s : SchedState)

/-- The statement sequence of `NachOSThread::Exit` before the exit-code
propagation: update statistics, set `threadToBeDestroyed = currentThread`
and `status = BLOCKED`.  (The `printf` summary and the `pid != 0` block
update only write-only aggregate reporting counters of the global
`Statistics` object, which no scheduling operation reads; they are not
part of this state.) -/
def exitPrep (maxTC : Nat) (alpha : ℚ) (s : SchedState) : SchedState :=
  let s1 := updateStatsS maxTC alpha s
  let s2 := { s1 with toBeDestroyed := some s1.current }
  setStatus s2.current .BLOCKED s2

/-- The dispatch phase of `NachOSThread::Exit` after `exitPrep`:
propagate the exit code to a not-yet-exited parent, then dispatch the
next ready thread; with no ready thread the machine halts when
`terminateSim` holds and idles otherwise. -/
def Exit (maxTC : Nat) (alpha : ℚ) (terminateSim : Bool) (ecode : Int)
    (s : SchedState) : Except Unit ExitRes :=
  let s3 := exitPrep maxTC alpha s
  let step : Except Unit SchedState :=
    if (s3.info s3.current).ppid ≠ -1 then
      -- ASSERT(threadArray[ppid] != NULL)
      if s3.glob.exitThreadArray (s3.info s3.current).ppid.toNat = false then
        SetChildExitCode (s3.info s3.current).ppid.toNat s3.current ecode s3
      else .ok s3
    else .ok s3
  match step with
  | .error e => .error e
  | .ok s4 =>
      match FindNextThreadToRun s4 with
      | (none, s5) => if terminateSim then .ok (.halted s5) else .ok (.idleWait s5)
      | (some n, s5) => .ok (.dispatched (Schedule n s5).1 (Schedule n s5).2)

/-- Outcome of `NachOSThread::JoinWithChild`. -/
inductive JoinOutcome where
  | ret (code : Int) (s : SchedState)
  | sleeping (s : SchedState) (tr : List Event)
  | idleWait (s : SchedState)

/-- `NachOSThread::JoinWithChild`: if the child's slot already records an
exit, return its exit code at once; otherwise record
`waitchild_id = whichchild` and go to sleep (on wake the code returns
`childexitcode[whichchild]`, see `joinResume`). -/
def JoinWithChild (maxTC : Nat) (alpha : ℚ) (whichchild : Nat)
    (s : SchedState) : JoinOutcome :=
  let inf := s.info s.current
  if inf.childExited whichchild then .ret (inf.childExitCode whichchild) s
  else
    let s1 := { s with
        info := Function.update s.info s.current
          { inf with waitchild := (whichchild : Int) } }
    match PutThreadToSleep maxTC alpha s1 with
    | .dispatched s2 tr => .sleeping s2 tr
    | .idleWait s2 => .idleWait s2

/-- The `return childexitcode[whichchild]` that thread `p` executes when
it resumes after the sleep inside `JoinWithChild`. -/
def joinResume (p whichchild : Nat) (s : SchedState) : Int :=
  (s.info p).childExitCode whichchild

/-- The linked-list insertion of `NachOSThread::SortedInsertInWaitQueue`:
walk past every entry whose deadline is `<= when` (the source's
`while ((ptr != NULL) && (ptr->GetWhen() <= when))`), then link the new
entry in (the head/middle/tail cases of the source collapse into one
recursion). -/
def sortedInsertWQ (t whn : Nat) : List (Nat × Nat) → List (Nat × Nat)
  | [] => [(t, whn)]
  | e :: rest =>
      if e.2 ≤ whn then e :: sortedInsertWQ t whn rest
      else (t, whn) :: e :: rest

/-- `NachOSThread::SortedInsertInWaitQueue`: insert the caller into the
time-sorted wait queue, record the sleep start time, then call
`PutThreadToSleep`. -/
def SortedInsertInWaitQueue (maxTC : Nat) (alpha : ℚ) (whn : Nat)
    (s : SchedState) : SleepRes :=
  let s1 := { s with waitQueue := sortedInsertWQ s.current whn s.waitQueue }
  let s2 := { s1 with
      stats := Function.update s1.stats s1.current
        { s1.stats s1.current with sleepstartTime := s1.glob.totalTicks } }
  PutThreadToSleep maxTC alpha s2

/-!
## Queue-membership invariants -/

/-- Number of queue positions pid `p` occupies, over the ready list, the
sleeping list and the time-sorted wait queue. -/
def occ (p : Nat) (s : SchedState) : Nat :=
  s.readyList.count p + s.sleepList.count p + (s.waitQueue.map Prod.fst).count p

/-- The invariant exactly as the specification states it: exactly one
thread has state `RUNNING`, and each live thread is in exactly one of the
three queues, or in none of them when it is `RUNNING`. -/
def InvClaim (s : SchedState) : Prop :=
  s.live.countP (fun p => decide ((s.info p).status = .RUNNING)) = 1 ∧
  ∀ p ∈ s.live,
    ((s.info p).status = .RUNNING → occ p s = 0) ∧
    ((s.info p).status ≠ .RUNNING → occ p s = 1)

instance (s : SchedState) : Decidable (InvClaim s) := by
  unfold InvClaim; infer_instance

/-- The invariant the code actually maintains at the boundaries of the
scheduling operations: pids are allocated once, the current thread is
live and is the only `RUNNING` one, it sits in no queue, every live
thread is in at most one queue position, ready threads are live and
`READY`, sleeping/wait-queue threads are live and `BLOCKED`, and no
destruction is pending.  (Unlike `InvClaim`, a `BLOCKED` thread may be in
no queue: threads blocked in `JoinWithChild` or finishing wait on no
queue at all.) -/
def SchedInv (s : SchedState) : Prop :=
  s.live.Nodup ∧
  s.current ∈ s.live ∧
  (s.info s.current).status = .RUNNING ∧
  (∀ p ∈ s.live, p ≠ s.current → (s.info p).status ≠ .RUNNING) ∧
  occ s.current s = 0 ∧
  (∀ p ∈ s.live, occ p s ≤ 1) ∧
  (∀ p ∈ s.readyList, p ∈ s.live ∧ (s.info p).status = .READY) ∧
  (∀ p ∈ s.sleepList, p ∈ s.live ∧ (s.info p).status = .BLOCKED) ∧
  (∀ pr ∈ s.waitQueue, pr.1 ∈ s.live ∧ (s.info pr.1).status = .BLOCKED) ∧
  s.toBeDestroyed = none

instance (s : SchedState) : Decidable (SchedInv s) := by
  unfold SchedInv; infer_instance

/-- Entry condition of `PutThreadToSleep`: like `SchedInv`, but the
calling (running) thread may already sit in one wait structure — its
caller (e.g. a semaphore, or `SortedInsertInWaitQueue`) enqueues it
*before* the sleep, while `JoinWithChild` and `FinishThread` call it with
the thread in no queue. -/
def SleepEntryInv (s : SchedState) : Prop :=
  s.live.Nodup ∧
  s.current ∈ s.live ∧
  (s.info s.current).status = .RUNNING ∧
  (∀ p ∈ s.live, p ≠ s.current → (s.info p).status ≠ .RUNNING) ∧
  s.current ∉ s.readyList ∧
  (∀ p ∈ s.live, occ p s ≤ 1) ∧
  (∀ p ∈ s.readyList, p ∈ s.live ∧ (s.info p).status = .READY) ∧
  (∀ p ∈ s.sleepList, p ∈ s.live ∧ (p ≠ s.current → (s.info p).status = .BLOCKED)) ∧
  (∀ pr ∈ s.waitQueue, pr.1 ∈ s.live ∧
    (pr.1 ≠ s.current → (s.info pr.1).status = .BLOCKED)) ∧
  s.toBeDestroyed = none

instance (s : SchedState) : Decidable (SleepEntryInv s) := by
  unfold SleepEntryInv; infer_instance

/-!
## Concrete sample states, used by witnesses and counterexamples -/

/-- A sample per-thread statistics record. -/
def sampleStats : TCBStats where
  startTime := 0
  prevstartTime := 10
  totalCPUburst := 7
  maxCPUburst := 5
  minCPUburst := 2
  numCPUburst := 2
  sleepTime := 0
  sleepstartTime := 0
  instructionCount := 0

/-- A sample globals record under a decay-priority policy. -/
def sampleGlobals : Globals where
  totalTicks := 16
  schedAlgo := 7
  prevBurst := fun _ => 3
  threadCpuCount := fun _ => 4
  threadPriority := fun _ => 50
  threadBasePriority := fun _ => 50
  exitThreadArray := fun _ => false
  burstPredict := fun _ => 5
  EstimationError := 0

/-- The same sample globals under the shortest-job-prediction policy. -/
def sampleGlobalsSJP : Globals := { sampleGlobals with schedAlgo := 2 }

/-- A sample TCB lifecycle record (a running root thread). -/
def sampleInfo : TCBInfo where
  status := .RUNNING
  ppid := -1
  childpids := []
  childExited := fun _ => false
  childExitCode := fun _ => 0
  waitchild := -1

/-- A sample scheduler state: thread 0 running, thread 1 ready. -/
def sampleState : SchedState where
  live := [0, 1]
  info := fun p => if p = 0 then sampleInfo else { sampleInfo with status := .READY }
  stats := fun _ => sampleStats
  glob := sampleGlobals
  readyList := [1]
  sleepList := []
  waitQueue := []
  current := 0
  toBeDestroyed := none

/-- `sampleState` with nobody else ready (thread 0 alone). -/
def sampleStateNoReady : SchedState :=
  { sampleState with live := [0], readyList := [] }

/-- The state `PutThreadToSleep` produces from `sampleState` (thread 0
blocks as in `JoinWithChild`, without sitting in any wait structure). -/
def stateAfterSleep : SchedState :=
  match PutThreadToSleep 4 (1/2) sampleState with
  | .dispatched s _ => s
  | .idleWait s => s

/-- The scheduler state carried by each `Exit` outcome. -/
def exitResState : ExitRes → SchedState
  | .dispatched s _ => s
  | .halted s => s
  | .idleWait s => s

/-- A parent thread's record: one child with pid 1 in slot 0, which has
already exited with code 7. -/
def sampleParentInfo : TCBInfo where
  status := .RUNNING
  ppid := -1
  childpids := [1]
  childExited := fun i => i == 0
  childExitCode := fun i => if i = 0 then 7 else 0
  waitchild := -1

/-- `sampleState` where the running thread 0 is a parent whose child in
slot 0 has already recorded an exit. -/
def sampleJoinState : SchedState :=
  { sampleState with
      info := fun p =>
        if p = 0 then sampleParentInfo
        else { sampleInfo with status := .READY, ppid := 0 } }

/-- A state in which child thread 1 (current) is about to `Exit` while
parent thread 0 is blocked in `JoinWithChild` waiting on slot 0. -/
def sampleExitState : SchedState where
  live := [0, 1]
  info := fun q =>
    if q = 0 then
      { sampleParentInfo with
          status := .BLOCKED
          waitchild := 0
          childExited := fun _ => false }
    else { sampleInfo with ppid := 0 }
  stats := fun _ => sampleStats
  glob := sampleGlobals
  readyList := []
  sleepList := []
  waitQueue := []
  current := 1
  toBeDestroyed := none

/-!
## Supporting lemmas -/

lemma rotScan_not_found (target : Nat) :
    ∀ (pending passed : List Nat) (start : Nat), target ∉ pending → start ≠ target →
      ∃ r, rotScan start target pending passed = (none, r) ∧
        ∀ x, x ∈ r ↔ (x ∈ pending ∨ x = start ∨ x ∈ passed) := by
  intro pending
  induction pending with
  | nil =>
      intro passed start _ hst
      refine ⟨passed ++ [start], ?_, ?_⟩
      · simp [rotScan, Ne.symm hst, hst]
      · intro x; simp [List.mem_append]; tauto
  | cons c rest ih =>
      intro passed start hnm hst
      have hct : c ≠ target := by
        intro h; exact hnm (by simp [h])
      have hrest : target ∉ rest := fun h => hnm (by simp [h])
      by_cases hcs : c = start
      · refine ⟨rest ++ start :: (passed ++ [c]), ?_, ?_⟩
        · simp [rotScan, hct, hcs, hst]
        · intro x; simp [List.mem_append, hcs]; tauto
      · obtain ⟨r, hr, hmem⟩ := ih (passed ++ [c]) start hrest hst
        refine ⟨r, ?_, ?_⟩
        · simp [rotScan, hct, hcs, hr]
        · intro x
          rw [hmem x]
          simp [List.mem_append]
          tauto

/-- Membership-preserving "not found" behaviour of the rotate-and-compare
scan on a nonempty sleeping list. -/
lemma removeSleeping_not_found (l : List Nat) (t : Nat)
    (hne : l ≠ []) (hnm : t ∉ l) :
    ∃ r, RemoveSleepingThread l t = .ok (none, r) ∧ ∀ x, x ∈ r ↔ x ∈ l := by
  match l with
  | [] => exact absurd rfl hne
  | a :: rest =>
      have hat : a ≠ t := by intro h; exact hnm (by simp [h])
      have hrt : t ∉ rest := fun h => hnm (by simp [h])
      obtain ⟨r, hr, hmem⟩ := rotScan_not_found t rest [] a hrt hat
      refine ⟨r, ?_, ?_⟩
      · simp [RemoveSleepingThread, hat, hr]
      · intro x
        rw [hmem x]
        simp
        tauto

lemma updateBurstStats_fields (pid : Nat) (t : TCBStats) (g : Globals) :
    (updateBurstStats pid t g).2.totalTicks = g.totalTicks ∧
    (updateBurstStats pid t g).2.schedAlgo = g.schedAlgo ∧
    (updateBurstStats pid t g).2.threadCpuCount = g.threadCpuCount ∧
    (updateBurstStats pid t g).2.threadPriority = g.threadPriority ∧
    (updateBurstStats pid t g).2.threadBasePriority = g.threadBasePriority ∧
    (updateBurstStats pid t g).2.exitThreadArray = g.exitThreadArray ∧
    (updateBurstStats pid t g).2.burstPredict = g.burstPredict ∧
    (updateBurstStats pid t g).2.EstimationError = g.EstimationError := by
  unfold updateBurstStats
  by_cases h : 0 < g.totalTicks - t.prevstartTime <;> simp [h]

lemma decayStep_base (g : Globals) (i : Nat) :
    (decayStep g i).exitThreadArray = g.exitThreadArray ∧
    (decayStep g i).threadBasePriority = g.threadBasePriority := by
  unfold decayStep
  split <;> simp

lemma decayStep_ne (g : Globals) (i j : Nat) (h : j ≠ i) :
    (decayStep g i).threadCpuCount j = g.threadCpuCount j ∧
    (decayStep g i).threadPriority j = g.threadPriority j ∧
    (decayStep g i).prevBurst j = g.prevBurst j := by
  unfold decayStep
  split <;> simp [Function.update_noteq h]

lemma foldl_decayStep_not_mem (l : List Nat) (g : Globals) (i : Nat)
    (h : i ∉ l) :
    (l.foldl decayStep g).threadCpuCount i = g.threadCpuCount i ∧
    (l.foldl decayStep g).threadPriority i = g.threadPriority i ∧
    (l.foldl decayStep g).prevBurst i = g.prevBurst i := by
  induction l generalizing g with
  | nil => simp
  | cons a rest ih =>
      have hia : i ≠ a := fun hh => h (by simp [hh])
      have hrest : i ∉ rest := fun hh => h (by simp [hh])
      obtain ⟨h1, h2, h3⟩ := decayStep_ne g a i hia
      obtain ⟨k1, k2, k3⟩ := ih (decayStep g a) hrest
      exact ⟨by simp [List.foldl_cons, k1, h1],
             by simp [List.foldl_cons, k2, h2],
             by simp [List.foldl_cons, k3, h3]⟩

lemma foldl_decayStep_spec (l : List Nat) (g : Globals) (i : Nat)
    (hmem : i ∈ l) (hnd : l.Nodup)
    (hlive : g.exitThreadArray i = false)
    (hbase : g.threadBasePriority i ≠ 0) :
    (l.foldl decayStep g).threadCpuCount i
        = (g.threadCpuCount i + g.prevBurst i) / 2 ∧
    (l.foldl decayStep g).threadPriority i
        = g.threadBasePriority i + ((g.threadCpuCount i + g.prevBurst i) / 2) / 2 ∧
    (l.foldl decayStep g).prevBurst i = 0 := by
  induction l generalizing g with
  | nil => simp at hmem
  | cons a rest ih =>
      rcases List.mem_cons.mp hmem with hai | hirest
      · subst hai
        have hrest : i ∉ rest := (List.nodup_cons.mp hnd).1
        have hstep :
            (decayStep g i).threadCpuCount i = (g.threadCpuCount i + g.prevBurst i) / 2 ∧
            (decayStep g i).threadPriority i
              = g.threadBasePriority i + ((g.threadCpuCount i + g.prevBurst i) / 2) / 2 ∧
            (decayStep g i).prevBurst i = 0 := by
          unfold decayStep
          rw [if_pos ⟨hlive, Nat.zero_le _, hbase⟩]
          simp
        obtain ⟨h1, h2, h3⟩ := hstep
        obtain ⟨k1, k2, k3⟩ := foldl_decayStep_not_mem rest (decayStep g i) i hrest
        exact ⟨by simp [List.foldl_cons, k1, h1],
               by simp [List.foldl_cons, k2, h2],
               by simp [List.foldl_cons, k3, h3]⟩
      · have hia : i ≠ a := by
          intro hh
          exact (List.nodup_cons.mp hnd).1 (hh ▸ hirest)
        obtain ⟨h1, h2, h3⟩ := decayStep_ne g a i hia
        obtain ⟨b1, b2⟩ := decayStep_base g a
        have ih2 := ih (decayStep g a) hirest (List.nodup_cons.mp hnd).2
          (by rw [b1]; exact hlive) (by rw [b2]; exact hbase)
        rw [List.foldl_cons]
        rw [h1, h3, b2] at ih2
        exact ih2

/-!
### Field laws of the state operations -/

@[simp] lemma Schedule_current (next : Nat) (s : SchedState) :
    (Schedule next s).1.current = next := by
  unfold Schedule; cases htb : s.toBeDestroyed <;> simp [htb]

@[simp] lemma Schedule_info (next : Nat) (s : SchedState) :
    (Schedule next s).1.info
      = Function.update s.info next { s.info next with status := .RUNNING } := by
  unfold Schedule; cases htb : s.toBeDestroyed <;> simp [htb]

@[simp] lemma Schedule_stats (next : Nat) (s : SchedState) :
    (Schedule next s).1.stats = s.stats := by
  unfold Schedule; cases htb : s.toBeDestroyed <;> simp [htb]

@[simp] lemma Schedule_glob (next : Nat) (s : SchedState) :
    (Schedule next s).1.glob = s.glob := by
  unfold Schedule; cases htb : s.toBeDestroyed <;> simp [htb]

@[simp] lemma Schedule_readyList (next : Nat) (s : SchedState) :
    (Schedule next s).1.readyList = s.readyList := by
  unfold Schedule; cases htb : s.toBeDestroyed <;> simp [htb]

@[simp] lemma Schedule_sleepList (next : Nat) (s : SchedState) :
    (Schedule next s).1.sleepList = s.sleepList := by
  unfold Schedule; cases htb : s.toBeDestroyed <;> simp [htb]

@[simp] lemma Schedule_waitQueue (next : Nat) (s : SchedState) :
    (Schedule next s).1.waitQueue = s.waitQueue := by
  unfold Schedule; cases htb : s.toBeDestroyed <;> simp [htb]

@[simp] lemma Schedule_toBeDestroyed (next : Nat) (s : SchedState) :
    (Schedule next s).1.toBeDestroyed = none := by
  unfold Schedule; cases htb : s.toBeDestroyed <;> simp [htb]

lemma Schedule_live_none (next : Nat) (s : SchedState)
    (h : s.toBeDestroyed = none) : (Schedule next s).1.live = s.live := by
  unfold Schedule; simp [h]

lemma Schedule_live_some (next : Nat) (s : SchedState) (t : Nat)
    (h : s.toBeDestroyed = some t) :
    (Schedule next s).1.live = s.live.erase t := by
  unfold Schedule; simp [h]

lemma Schedule_trace_none (next : Nat) (s : SchedState)
    (h : s.toBeDestroyed = none) :
    (Schedule next s).2 = [.contextSwitch s.current next] := by
  unfold Schedule; simp [h]

lemma Schedule_trace_some (next : Nat) (s : SchedState) (t : Nat)
    (h : s.toBeDestroyed = some t) :
    (Schedule next s).2 = [.contextSwitch s.current next, .destroy t] := by
  unfold Schedule; simp [h]

@[simp] lemma updateStatsS_current (maxTC : Nat) (alpha : ℚ) (s : SchedState) :
    (updateStatsS maxTC alpha s).current = s.current := rfl

@[simp] lemma updateStatsS_info (maxTC : Nat) (alpha : ℚ) (s : SchedState) :
    (updateStatsS maxTC alpha s).info = s.info := rfl

@[simp] lemma updateStatsS_readyList (maxTC : Nat) (alpha : ℚ) (s : SchedState) :
    (updateStatsS maxTC alpha s).readyList = s.readyList := rfl

@[simp] lemma updateStatsS_sleepList (maxTC : Nat) (alpha : ℚ) (s : SchedState) :
    (updateStatsS maxTC alpha s).sleepList = s.sleepList := rfl

@[simp] lemma updateStatsS_waitQueue (maxTC : Nat) (alpha : ℚ) (s : SchedState) :
    (updateStatsS maxTC alpha s).waitQueue = s.waitQueue := rfl

@[simp] lemma updateStatsS_live (maxTC : Nat) (alpha : ℚ) (s : SchedState) :
    (updateStatsS maxTC alpha s).live = s.live := rfl

@[simp] lemma updateStatsS_toBeDestroyed (maxTC : Nat) (alpha : ℚ)
    (s : SchedState) :
    (updateStatsS maxTC alpha s).toBeDestroyed = s.toBeDestroyed := rfl

@[simp] lemma updateStatsS_stats (maxTC : Nat) (alpha : ℚ) (s : SchedState) :
    (updateStatsS maxTC alpha s).stats
      = Function.update s.stats s.current
          (UpdateStats maxTC alpha s.current (s.stats s.current) s.glob).1 := rfl

@[simp] lemma updateStatsS_glob (maxTC : Nat) (alpha : ℚ) (s : SchedState) :
    (updateStatsS maxTC alpha s).glob
      = (UpdateStats maxTC alpha s.current (s.stats s.current) s.glob).2 := rfl

@[simp] lemma ThreadIsReadyToRun_readyList (t : Nat) (s : SchedState) :
    (ThreadIsReadyToRun t s).readyList = s.readyList ++ [t] := rfl

@[simp] lemma ThreadIsReadyToRun_info (t : Nat) (s : SchedState) :
    (ThreadIsReadyToRun t s).info
      = Function.update s.info t { s.info t with status := .READY } := rfl

@[simp] lemma ThreadIsReadyToRun_current (t : Nat) (s : SchedState) :
    (ThreadIsReadyToRun t s).current = s.current := rfl

@[simp] lemma ThreadIsReadyToRun_sleepList (t : Nat) (s : SchedState) :
    (ThreadIsReadyToRun t s).sleepList = s.sleepList := rfl

@[simp] lemma ThreadIsReadyToRun_waitQueue (t : Nat) (s : SchedState) :
    (ThreadIsReadyToRun t s).waitQueue = s.waitQueue := rfl

@[simp] lemma ThreadIsReadyToRun_live (t : Nat) (s : SchedState) :
    (ThreadIsReadyToRun t s).live = s.live := rfl

@[simp] lemma ThreadIsReadyToRun_toBeDestroyed (t : Nat) (s : SchedState) :
    (ThreadIsReadyToRun t s).toBeDestroyed = s.toBeDestroyed := rfl

@[simp] lemma ThreadIsReadyToRun_stats (t : Nat) (s : SchedState) :
    (ThreadIsReadyToRun t s).stats = s.stats := rfl

@[simp] lemma ThreadIsReadyToRun_glob (t : Nat) (s : SchedState) :
    (ThreadIsReadyToRun t s).glob = s.glob := rfl

@[simp] lemma setStatus_info (p : Nat) (st : ThreadStatus) (s : SchedState) :
    (setStatus p st s).info
      = Function.update s.info p { s.info p with status := st } := rfl

@[simp] lemma setStatus_current (p : Nat) (st : ThreadStatus) (s : SchedState) :
    (setStatus p st s).current = s.current := rfl

@[simp] lemma setStatus_readyList (p : Nat) (st : ThreadStatus) (s : SchedState) :
    (setStatus p st s).readyList = s.readyList := rfl

@[simp] lemma setStatus_sleepList (p : Nat) (st : ThreadStatus) (s : SchedState) :
    (setStatus p st s).sleepList = s.sleepList := rfl

@[simp] lemma setStatus_waitQueue (p : Nat) (st : ThreadStatus) (s : SchedState) :
    (setStatus p st s).waitQueue = s.waitQueue := rfl

@[simp] lemma setStatus_live (p : Nat) (st : ThreadStatus) (s : SchedState) :
    (setStatus p st s).live = s.live := rfl

@[simp] lemma setStatus_toBeDestroyed (p : Nat) (st : ThreadStatus)
    (s : SchedState) :
    (setStatus p st s).toBeDestroyed = s.toBeDestroyed := rfl

@[simp] lemma setStatus_stats (p : Nat) (st : ThreadStatus) (s : SchedState) :
    (setStatus p st s).stats = s.stats := rfl

@[simp] lemma setStatus_glob (p : Nat) (st : ThreadStatus) (s : SchedState) :
    (setStatus p st s).glob = s.glob := rfl

/-!
## C1: removal of an absent thread from the sleeping list -/

/-- C1: the claim asserts that `RemoveSleepingThread` on a thread not in
the sleeping set returns "not found" (`NULL`), preserves the membership
of the set, terminates and does not fault, *for every* state of the set
including the empty one.  On every nonempty sleeping list this holds (the
rotate-and-compare scan terminates with `NULL` and only rotates the
list), but on the empty list the code dereferences the `NULL` result of
`List::Remove`, so the "including the empty set" part fails: the code
contradicts its own header comment ("return NULL if argument thread is
not present"). -/
theorem removeSleeping_notFound_spec :
    RemoveSleepingThread ([] : List Nat) 0 = .error () ∧
    ∀ (l : List Nat) (t : Nat), l ≠ [] → t ∉ l →
      ∃ r, RemoveSleepingThread l t = .ok (none, r) ∧ ∀ x, x ∈ r ↔ x ∈ l := by
  constructor
  · rfl
  · intro l t hne hnm
    exact removeSleeping_not_found l t hne hnm

theorem removeSleeping_notFound_spec_witness :
    (([1, 2, 3] : List Nat) ≠ [] ∧ (5 : Nat) ∉ ([1, 2, 3] : List Nat)) ∧
    ∃ r, RemoveSleepingThread [1, 2, 3] 5 = .ok (none, r) ∧
      ∀ x, x ∈ r ↔ x ∈ ([1, 2, 3] : List Nat) :=
  ⟨⟨by decide, by decide⟩,
   removeSleeping_notFound_spec.2 [1, 2, 3] 5 (by decide) (by decide)⟩

/-!
## C5: consistency of the per-burst statistics update -/

/-- C5: on every `UpdateStats` call whose burst
`cpuburst = totalTicks - prevstartTime` is positive, the burst counter
increments by one, the total increases by the burst, and afterwards
`minCPUburst ≤ cpuburst ≤ maxCPUburst`, with each extremum taking the
value of the burst when it is a new maximum (resp. new minimum); the
entry invariant `minCPUburst ≤ maxCPUburst` is preserved.  (The extrema's
initialization lives in the missing `thread.h`; `minCPUburst ≤
maxCPUburst` captures every consistently initialized entry state and is
itself preserved by the update.) -/
theorem updateStats_burst_consistent (maxTC : Nat) (alpha : ℚ) (pid : Nat)
    (t : TCBStats) (g : Globals)
    (hpos : t.prevstartTime < g.totalTicks)
    (hminmax : t.minCPUburst ≤ t.maxCPUburst) :
    (UpdateStats maxTC alpha pid t g).1.numCPUburst = t.numCPUburst + 1 ∧
    (UpdateStats maxTC alpha pid t g).1.totalCPUburst
        = t.totalCPUburst + (g.totalTicks - t.prevstartTime) ∧
    (UpdateStats maxTC alpha pid t g).1.minCPUburst
        ≤ g.totalTicks - t.prevstartTime ∧
    g.totalTicks - t.prevstartTime
        ≤ (UpdateStats maxTC alpha pid t g).1.maxCPUburst ∧
    (t.maxCPUburst < g.totalTicks - t.prevstartTime →
      (UpdateStats maxTC alpha pid t g).1.maxCPUburst
        = g.totalTicks - t.prevstartTime) ∧
    (g.totalTicks - t.prevstartTime < t.minCPUburst →
      (UpdateStats maxTC alpha pid t g).1.minCPUburst
        = g.totalTicks - t.prevstartTime) ∧
    (UpdateStats maxTC alpha pid t g).1.minCPUburst
        ≤ (UpdateStats maxTC alpha pid t g).1.maxCPUburst := by
  have hb : 0 < g.totalTicks - t.prevstartTime := Nat.sub_pos_of_lt hpos
  have h1 : (UpdateStats maxTC alpha pid t g).1 = (updateBurstStats pid t g).1 := rfl
  rw [h1]
  unfold updateBurstStats
  simp only [hb, if_true]
  split_ifs with h2 h3 <;> simp <;> omega

theorem updateStats_burst_consistent_witness :
    (sampleStats.prevstartTime < sampleGlobals.totalTicks ∧
     sampleStats.minCPUburst ≤ sampleStats.maxCPUburst) ∧
    ((UpdateStats 4 (1/2) 1 sampleStats sampleGlobals).1.numCPUburst
        = sampleStats.numCPUburst + 1 ∧
     (UpdateStats 4 (1/2) 1 sampleStats sampleGlobals).1.totalCPUburst
        = sampleStats.totalCPUburst
          + (sampleGlobals.totalTicks - sampleStats.prevstartTime) ∧
     (UpdateStats 4 (1/2) 1 sampleStats sampleGlobals).1.minCPUburst
        ≤ sampleGlobals.totalTicks - sampleStats.prevstartTime ∧
     sampleGlobals.totalTicks - sampleStats.prevstartTime
        ≤ (UpdateStats 4 (1/2) 1 sampleStats sampleGlobals).1.maxCPUburst ∧
     (sampleStats.maxCPUburst < sampleGlobals.totalTicks - sampleStats.prevstartTime →
       (UpdateStats 4 (1/2) 1 sampleStats sampleGlobals).1.maxCPUburst
          = sampleGlobals.totalTicks - sampleStats.prevstartTime) ∧
     (sampleGlobals.totalTicks - sampleStats.prevstartTime < sampleStats.minCPUburst →
       (UpdateStats 4 (1/2) 1 sampleStats sampleGlobals).1.minCPUburst
          = sampleGlobals.totalTicks - sampleStats.prevstartTime) ∧
     (UpdateStats 4 (1/2) 1 sampleStats sampleGlobals).1.minCPUburst
        ≤ (UpdateStats 4 (1/2) 1 sampleStats sampleGlobals).1.maxCPUburst) :=
  ⟨⟨by decide, by decide⟩,
   updateStats_burst_consistent 4 (1/2) 1 sampleStats sampleGlobals
     (by decide) (by decide)⟩

/-!
## C6: the decay-priority update -/

/-- C6: under a decay-priority policy (`schedAlgo >= 7`), every
`UpdateStats` call applies to every still-live thread `i` (not exited,
with the nonzero base priority every created thread gets, and within the
thread-array bound) exactly
`cpuCountEstimate = (cpuCountEstimate + lastBurst) / 2` and
`currentPriority = basePriority + cpuCountEstimate / 2` in integer
arithmetic, and resets that thread's `lastBurst` (`prevBurst[i]`) to zero
after folding it in.  `lastBurst` is `prevBurst[i]` after the burst
bookkeeping of the same call, which for `i ≠ pid` equals its entry
value. -/
theorem updateStats_decay_policy (maxTC : Nat) (alpha : ℚ) (pid : Nat)
    (t : TCBStats) (g : Globals) (i : Nat)
    (halgo : 7 ≤ g.schedAlgo) (hi : i < maxTC)
    (hlive : g.exitThreadArray i = false)
    (hbase : g.threadBasePriority i ≠ 0) :
    (UpdateStats maxTC alpha pid t g).2.threadCpuCount i
        = (g.threadCpuCount i + (updateBurstStats pid t g).2.prevBurst i) / 2 ∧
    (UpdateStats maxTC alpha pid t g).2.threadPriority i
        = g.threadBasePriority i
          + ((g.threadCpuCount i + (updateBurstStats pid t g).2.prevBurst i) / 2) / 2 ∧
    (UpdateStats maxTC alpha pid t g).2.prevBurst i = 0 := by
  obtain ⟨f1, f2, f3, f4, f5, f6, f7, f8⟩ := updateBurstStats_fields pid t g
  have hsched : 7 ≤ (updateBurstStats pid t g).2.schedAlgo := by
    rw [f2]; exact halgo
  have hmain : (UpdateStats maxTC alpha pid t g).2
      = decayAll maxTC (updateBurstStats pid t g).2 := by
    show applySchedPolicy maxTC alpha pid (g.totalTicks - t.prevstartTime)
        (updateBurstStats pid t g).2 = _
    unfold applySchedPolicy
    rw [if_pos hsched]
  have hspec := foldl_decayStep_spec (List.range maxTC)
      (updateBurstStats pid t g).2 i (List.mem_range.mpr hi)
      (List.nodup_range maxTC)
      (by rw [f6]; exact hlive) (by rw [f5]; exact hbase)
  rw [hmain]
  unfold decayAll
  rw [f3, f5] at hspec
  exact hspec

theorem updateStats_decay_policy_witness :
    (7 ≤ sampleGlobals.schedAlgo ∧ 2 < 4 ∧
     sampleGlobals.exitThreadArray 2 = false ∧
     sampleGlobals.threadBasePriority 2 ≠ 0) ∧
    ((UpdateStats 4 (1/2) 1 sampleStats sampleGlobals).2.threadCpuCount 2
        = (sampleGlobals.threadCpuCount 2
           + (updateBurstStats 1 sampleStats sampleGlobals).2.prevBurst 2) / 2 ∧
     (UpdateStats 4 (1/2) 1 sampleStats sampleGlobals).2.threadPriority 2
        = sampleGlobals.threadBasePriority 2
          + ((sampleGlobals.threadCpuCount 2
              + (updateBurstStats 1 sampleStats sampleGlobals).2.prevBurst 2) / 2) / 2 ∧
     (UpdateStats 4 (1/2) 1 sampleStats sampleGlobals).2.prevBurst 2 = 0) :=
  ⟨⟨by decide, by decide, by decide, by decide⟩,
   updateStats_decay_policy 4 (1/2) 1 sampleStats sampleGlobals 2
     (by decide) (by decide) (by decide) (by decide)⟩

/-!
## C7: the shortest-job-prediction update -/

/-- C7: under the shortest-job-prediction policy (`schedAlgo == 2`),
every `UpdateStats` call replaces the calling thread's prediction by the
exponential moving average
`(1 - alpha) * predictedBurst + alpha * lastBurst` (with `lastBurst` the
`prevBurst[pid]` value after the burst bookkeeping of the same call) and
accumulates the estimation error by exactly
`|predictedBurst - actualBurst|` for the burst just completed. -/
theorem updateStats_sjp_policy (maxTC : Nat) (alpha : ℚ) (pid : Nat)
    (t : TCBStats) (g : Globals) (halgo : g.schedAlgo = 2) :
    (UpdateStats maxTC alpha pid t g).2.burstPredict pid
        = (1 - alpha) * g.burstPredict pid
          + alpha * ((updateBurstStats pid t g).2.prevBurst pid : ℚ) ∧
    (UpdateStats maxTC alpha pid t g).2.EstimationError
        = g.EstimationError
          + |g.burstPredict pid - ((g.totalTicks - t.prevstartTime : Nat) : ℚ)| := by
  obtain ⟨f1, f2, f3, f4, f5, f6, f7, f8⟩ := updateBurstStats_fields pid t g
  have hn7 : ¬ 7 ≤ (updateBurstStats pid t g).2.schedAlgo := by
    rw [f2, halgo]; omega
  have h2 : (updateBurstStats pid t g).2.schedAlgo = 2 := by
    rw [f2]; exact halgo
  have hmain : (UpdateStats maxTC alpha pid t g).2
      = sjpUpdate alpha pid (g.totalTicks - t.prevstartTime)
          (updateBurstStats pid t g).2 := by
    show applySchedPolicy maxTC alpha pid (g.totalTicks - t.prevstartTime)
        (updateBurstStats pid t g).2 = _
    unfold applySchedPolicy
    rw [if_neg hn7, if_pos h2]
  rw [hmain]
  unfold sjpUpdate
  constructor
  · simp [f7]
  · simp only [f7, f8]
    by_cases hc :
        ((g.totalTicks - t.prevstartTime : Nat) : ℚ) < g.burstPredict pid
    · rw [if_pos hc]
      have habs : |g.burstPredict pid - ((g.totalTicks - t.prevstartTime : Nat) : ℚ)|
          = g.burstPredict pid - ((g.totalTicks - t.prevstartTime : Nat) : ℚ) :=
        abs_of_pos (by linarith)
      rw [habs]
    · rw [if_neg hc]
      have habs : |g.burstPredict pid - ((g.totalTicks - t.prevstartTime : Nat) : ℚ)|
          = -(g.burstPredict pid - ((g.totalTicks - t.prevstartTime : Nat) : ℚ)) :=
        abs_of_nonpos (by linarith)
      rw [habs]; ring

theorem updateStats_sjp_policy_witness :
    sampleGlobalsSJP.schedAlgo = 2 ∧
    ((UpdateStats 4 (1/2) 1 sampleStats sampleGlobalsSJP).2.burstPredict 1
        = (1 - (1/2 : ℚ)) * sampleGlobalsSJP.burstPredict 1
          + (1/2 : ℚ) * ((updateBurstStats 1 sampleStats sampleGlobalsSJP).2.prevBurst 1 : ℚ) ∧
     (UpdateStats 4 (1/2) 1 sampleStats sampleGlobalsSJP).2.EstimationError
        = sampleGlobalsSJP.EstimationError
          + |sampleGlobalsSJP.burstPredict 1
             - ((sampleGlobalsSJP.totalTicks - sampleStats.prevstartTime : Nat) : ℚ)|) :=
  ⟨by decide,
   updateStats_sjp_policy 4 (1/2) 1 sampleStats sampleGlobalsSJP (by decide)⟩

/-!
## Behaviour of `PutThreadToSleep` -/

@[simp] lemma sleepPrep_current (maxTC : Nat) (alpha : ℚ) (s : SchedState) :
    (sleepPrep maxTC alpha s).current = s.current := rfl

@[simp] lemma sleepPrep_info (maxTC : Nat) (alpha : ℚ) (s : SchedState) :
    (sleepPrep maxTC alpha s).info
      = Function.update s.info s.current
          { s.info s.current with status := .BLOCKED } := rfl

@[simp] lemma sleepPrep_readyList (maxTC : Nat) (alpha : ℚ) (s : SchedState) :
    (sleepPrep maxTC alpha s).readyList = s.readyList := rfl

@[simp] lemma sleepPrep_sleepList (maxTC : Nat) (alpha : ℚ) (s : SchedState) :
    (sleepPrep maxTC alpha s).sleepList = s.sleepList := rfl

@[simp] lemma sleepPrep_waitQueue (maxTC : Nat) (alpha : ℚ) (s : SchedState) :
    (sleepPrep maxTC alpha s).waitQueue = s.waitQueue := rfl

@[simp] lemma sleepPrep_live (maxTC : Nat) (alpha : ℚ) (s : SchedState) :
    (sleepPrep maxTC alpha s).live = s.live := rfl

@[simp] lemma sleepPrep_toBeDestroyed (maxTC : Nat) (alpha : ℚ)
    (s : SchedState) :
    (sleepPrep maxTC alpha s).toBeDestroyed = s.toBeDestroyed := rfl

@[simp] lemma exitPrep_current (maxTC : Nat) (alpha : ℚ) (s : SchedState) :
    (exitPrep maxTC alpha s).current = s.current := rfl

@[simp] lemma exitPrep_info (maxTC : Nat) (alpha : ℚ) (s : SchedState) :
    (exitPrep maxTC alpha s).info
      = Function.update s.info s.current
          { s.info s.current with status := .BLOCKED } := rfl

@[simp] lemma exitPrep_readyList (maxTC : Nat) (alpha : ℚ) (s : SchedState) :
    (exitPrep maxTC alpha s).readyList = s.readyList := rfl

@[simp] lemma exitPrep_sleepList (maxTC : Nat) (alpha : ℚ) (s : SchedState) :
    (exitPrep maxTC alpha s).sleepList = s.sleepList := rfl

@[simp] lemma exitPrep_waitQueue (maxTC : Nat) (alpha : ℚ) (s : SchedState) :
    (exitPrep maxTC alpha s).waitQueue = s.waitQueue := rfl

@[simp] lemma exitPrep_live (maxTC : Nat) (alpha : ℚ) (s : SchedState) :
    (exitPrep maxTC alpha s).live = s.live := rfl

@[simp] lemma exitPrep_toBeDestroyed (maxTC : Nat) (alpha : ℚ)
    (s : SchedState) :
    (exitPrep maxTC alpha s).toBeDestroyed = some s.current := rfl

@[simp] lemma exitPrep_glob (maxTC : Nat) (alpha : ℚ) (s : SchedState) :
    (exitPrep maxTC alpha s).glob
      = (UpdateStats maxTC alpha s.current (s.stats s.current) s.glob).2 := rfl

lemma putThreadToSleep_idle_spec (maxTC : Nat) (alpha : ℚ) (s : SchedState)
    (hr : s.readyList = []) :
    ∃ s4, PutThreadToSleep maxTC alpha s = .idleWait s4 ∧
      s4.current = s.current ∧
      s4.info = Function.update s.info s.current
        { s.info s.current with status := .BLOCKED } ∧
      s4.readyList = [] ∧ s4.sleepList = s.sleepList ∧
      s4.waitQueue = s.waitQueue ∧ s4.live = s.live ∧
      s4.toBeDestroyed = s.toBeDestroyed := by
  refine ⟨sleepPrep maxTC alpha s, ?_, rfl, rfl, ?_, rfl, rfl, rfl, rfl⟩
  · unfold PutThreadToSleep
    simp only [FindNextThreadToRun, sleepPrep_readyList, hr]
  · rw [sleepPrep_readyList]; exact hr

lemma putThreadToSleep_dispatch_spec (maxTC : Nat) (alpha : ℚ) (s : SchedState)
    (n : Nat) (rest : List Nat) (hr : s.readyList = n :: rest) :
    ∃ s5 tr, PutThreadToSleep maxTC alpha s = .dispatched s5 tr ∧
      s5.current = n ∧
      s5.info = Function.update
        (Function.update s.info s.current { s.info s.current with status := .BLOCKED }) n
        { Function.update s.info s.current
            { s.info s.current with status := .BLOCKED } n with status := .RUNNING } ∧
      s5.readyList = rest ∧ s5.sleepList = s.sleepList ∧
      s5.waitQueue = s.waitQueue ∧ s5.toBeDestroyed = none ∧
      (s.toBeDestroyed = none →
        s5.live = s.live ∧ tr = [.contextSwitch s.current n]) ∧
      (∀ t, s.toBeDestroyed = some t →
        s5.live = s.live.erase t ∧ tr = [.contextSwitch s.current n, .destroy t]) := by
  have hready : (sleepPrep maxTC alpha s).readyList = n :: rest := by
    rw [sleepPrep_readyList]; exact hr
  refine ⟨(Schedule n { sleepPrep maxTC alpha s with readyList := rest }).1,
          (Schedule n { sleepPrep maxTC alpha s with readyList := rest }).2,
          ?_, by simp, ?_, by simp, by simp, by simp, by simp, ?_, ?_⟩
  · unfold PutThreadToSleep
    simp only [FindNextThreadToRun, hready]
  · rw [Schedule_info]; rfl
  · intro htb
    have htb2 : ({ sleepPrep maxTC alpha s with
        readyList := rest } : SchedState).toBeDestroyed = none := htb
    refine ⟨?_, ?_⟩
    · rw [Schedule_live_none _ _ htb2]; rfl
    · rw [Schedule_trace_none _ _ htb2]; rfl
  · intro t htb
    have htb2 : ({ sleepPrep maxTC alpha s with
        readyList := rest } : SchedState).toBeDestroyed = some t := htb
    refine ⟨?_, ?_⟩
    · rw [Schedule_live_some _ _ _ htb2]; rfl
    · rw [Schedule_trace_some _ _ _ htb2]; rfl

/-!
## Child exit-code propagation -/

lemma update_status_fields (f : Nat → TCBInfo) (n p : Nat) (st : ThreadStatus) :
    (Function.update f n { f n with status := st } p).ppid = (f p).ppid ∧
    (Function.update f n { f n with status := st } p).childpids = (f p).childpids ∧
    (Function.update f n { f n with status := st } p).childExited = (f p).childExited ∧
    (Function.update f n { f n with status := st } p).childExitCode = (f p).childExitCode ∧
    (Function.update f n { f n with status := st } p).waitchild = (f p).waitchild := by
  by_cases h : p = n
  · subst h; simp
  · simp [Function.update_noteq h]

lemma foldl_decayStep_exitArr (l : List Nat) (g : Globals) :
    (l.foldl decayStep g).exitThreadArray = g.exitThreadArray := by
  induction l generalizing g with
  | nil => rfl
  | cons a rest ih =>
      rw [List.foldl_cons, ih, (decayStep_base g a).1]

lemma UpdateStats_exitThreadArray (maxTC : Nat) (alpha : ℚ) (pid : Nat)
    (t : TCBStats) (g : Globals) :
    (UpdateStats maxTC alpha pid t g).2.exitThreadArray = g.exitThreadArray := by
  obtain ⟨f1, f2, f3, f4, f5, f6, f7, f8⟩ := updateBurstStats_fields pid t g
  have hm : (UpdateStats maxTC alpha pid t g).2
      = applySchedPolicy maxTC alpha pid (g.totalTicks - t.prevstartTime)
          (updateBurstStats pid t g).2 := rfl
  rw [hm]
  unfold applySchedPolicy
  split_ifs with h1 h2
  · rw [show decayAll maxTC (updateBurstStats pid t g).2
        = (List.range maxTC).foldl decayStep (updateBurstStats pid t g).2 from rfl,
      foldl_decayStep_exitArr]
    exact f6
  · unfold sjpUpdate
    simpa using f6
  · exact f6

lemma setChildExitCode_records (p cpid : Nat) (ec : Int) (s : SchedState)
    (i : Nat)
    (hidx : (s.info p).childpids.findIdx? (· == cpid) = some i) :
    ∃ s2, SetChildExitCode p cpid ec s = .ok s2 ∧
      (s2.info p).childExited i = true ∧
      (s2.info p).childExitCode i = ec ∧
      (∀ q, q ≠ p → s2.info q = s.info q) ∧
      ((s.info p).waitchild = (i : Int) →
        s2.readyList = s.readyList ++ [p] ∧ (s2.info p).status = .READY ∧
        (s2.info p).waitchild = -1) ∧
      ((s.info p).waitchild ≠ (i : Int) →
        s2.readyList = s.readyList ∧ (s2.info p).status = (s.info p).status ∧
        (s2.info p).waitchild = (s.info p).waitchild) ∧
      s2.sleepList = s.sleepList ∧ s2.waitQueue = s.waitQueue ∧
      s2.live = s.live ∧ s2.current = s.current ∧
      s2.toBeDestroyed = s.toBeDestroyed ∧ s2.glob = s.glob ∧
      s2.stats = s.stats := by
  by_cases hw : (s.info p).waitchild = (i : Int)
  · refine ⟨ThreadIsReadyToRun p
        { s with info := Function.update s.info p
                   ({ s.info p with
                       childExitCode := Function.update (s.info p).childExitCode i ec
                       childExited := Function.update (s.info p).childExited i true
                       waitchild := -1 }) },
        ?_, ?_, ?_, ?_, ?_, ?_, rfl, rfl, rfl, rfl, rfl, rfl, rfl⟩
    · simp only [SetChildExitCode, hidx, if_pos hw]
    · simp [Function.update_same]
    · simp [Function.update_same]
    · intro q hq
      simp [Function.update_noteq hq]
    · intro _
      refine ⟨rfl, ?_, ?_⟩ <;> simp [Function.update_same]
    · intro hcontra
      exact absurd hw hcontra
  · refine ⟨{ s with info := Function.update s.info p
                       ({ s.info p with
                           childExitCode := Function.update (s.info p).childExitCode i ec
                           childExited := Function.update (s.info p).childExited i true }) },
        ?_, ?_, ?_, ?_, ?_, ?_, rfl, rfl, rfl, rfl, rfl, rfl, rfl⟩
    · simp only [SetChildExitCode, hidx, if_neg hw]
    · simp [Function.update_same]
    · simp [Function.update_same]
    · intro q hq
      simp [Function.update_noteq hq]
    · intro hcontra
      exact absurd hcontra hw
    · intro _
      refine ⟨rfl, ?_, ?_⟩ <;> simp [Function.update_same]

lemma exit_prop_spec (maxTC : Nat) (alpha : ℚ) (term : Bool) (ec : Int)
    (s : SchedState) (p i : Nat)
    (hpp : (s.info s.current).ppid = (p : Nat))
    (hne : p ≠ s.current)
    (hidx : (s.info p).childpids.findIdx? (· == s.current) = some i)
    (hnex : s.glob.exitThreadArray p = false) :
    ∃ s4, SetChildExitCode p s.current ec (exitPrep maxTC alpha s) = .ok s4 ∧
      Exit maxTC alpha term ec s
        = (match s4.readyList with
           | [] => .ok (if term then ExitRes.halted s4 else ExitRes.idleWait s4)
           | n :: rest =>
               .ok (.dispatched (Schedule n { s4 with readyList := rest }).1
                                (Schedule n { s4 with readyList := rest }).2)) ∧
      (s4.info p).childExited i = true ∧
      (s4.info p).childExitCode i = ec ∧
      s4.current = s.current ∧ s4.toBeDestroyed = some s.current ∧
      s4.live = s.live ∧ s4.sleepList = s.sleepList ∧
      s4.waitQueue = s.waitQueue ∧
      ((s.info p).waitchild = (i : Int) →
        s4.readyList = s.readyList ++ [p] ∧ (s4.info p).status = .READY) ∧
      ((s.info p).waitchild ≠ (i : Int) →
        s4.readyList = s.readyList ∧ (s4.info p).status = (s.info p).status) ∧
      (∀ q, q ≠ p → s4.info q
        = Function.update s.info s.current
            { s.info s.current with status := .BLOCKED } q) := by
  have hinfop : (exitPrep maxTC alpha s).info p = s.info p := by
    rw [exitPrep_info, Function.update_noteq hne]
  have hidx3 : ((exitPrep maxTC alpha s).info p).childpids.findIdx?
      (· == s.current) = some i := by rw [hinfop]; exact hidx
  obtain ⟨s4, heq, hrec1, hrec2, hother, hwait, hnwait, hsl, hwq, hlv, hcur,
      htbd, hglob, hstats⟩ :=
    setChildExitCode_records p s.current ec (exitPrep maxTC alpha s) i hidx3
  have hppid3 : ((exitPrep maxTC alpha s).info
      (exitPrep maxTC alpha s).current).ppid = (p : Nat) := by
    rw [exitPrep_current, exitPrep_info, Function.update_same]
    exact hpp
  have hglob3 : (exitPrep maxTC alpha s).glob.exitThreadArray p = false := by
    rw [exitPrep_glob, UpdateStats_exitThreadArray]
    exact hnex
  refine ⟨s4, heq, ?_, hrec1, hrec2, ?_, ?_, ?_, ?_, ?_, ?_, ?_, ?_⟩
  · unfold Exit
    simp only [hppid3, Int.toNat_natCast, hglob3]
    simp only [if_true, if_pos (show ((p : Nat) : Int) ≠ -1 by omega)]
    rw [show SetChildExitCode p (exitPrep maxTC alpha s).current ec
        (exitPrep maxTC alpha s)
        = SetChildExitCode p s.current ec (exitPrep maxTC alpha s) from rfl]
    rw [heq]
    show (match FindNextThreadToRun s4 with
          | (none, s5) => if term then Except.ok (ExitRes.halted s5)
                          else Except.ok (ExitRes.idleWait s5)
          | (some n, s5) => Except.ok (.dispatched (Schedule n s5).1 (Schedule n s5).2))
        = _
    unfold FindNextThreadToRun
    rcases hr4 : s4.readyList with _ | ⟨n, rest⟩ <;> simp [hr4]
    cases term <;> rfl
  · rw [hcur, exitPrep_current]
  · rw [htbd, exitPrep_toBeDestroyed]
  · rw [hlv, exitPrep_live]
  · rw [hsl, exitPrep_sleepList]
  · rw [hwq, exitPrep_waitQueue]
  · intro hw
    have hw3 : ((exitPrep maxTC alpha s).info p).waitchild = (i : Int) := by
      rw [hinfop]; exact hw
    obtain ⟨h1, h2, _⟩ := hwait hw3
    exact ⟨by rw [h1, exitPrep_readyList], h2⟩
  · intro hw
    have hw3 : ((exitPrep maxTC alpha s).info p).waitchild ≠ (i : Int) := by
      rw [hinfop]; exact hw
    obtain ⟨h1, h2, _⟩ := hnwait hw3
    exact ⟨by rw [h1, exitPrep_readyList],
           by rw [h2, hinfop]⟩
  · intro q hq
    rw [hother q hq, exitPrep_info]

lemma exit_no_prop_spec (maxTC : Nat) (alpha : ℚ) (term : Bool) (ec : Int)
    (s : SchedState) (p : Nat)
    (hpp : (s.info s.current).ppid = (p : Nat))
    (hex : s.glob.exitThreadArray p = true) :
    Exit maxTC alpha term ec s
      = (match s.readyList with
         | [] => .ok (if term then ExitRes.halted (exitPrep maxTC alpha s)
                      else ExitRes.idleWait (exitPrep maxTC alpha s))
         | n :: rest =>
             .ok (.dispatched
               (Schedule n { exitPrep maxTC alpha s with readyList := rest }).1
               (Schedule n { exitPrep maxTC alpha s with readyList := rest }).2)) := by
  have hppid3 : ((exitPrep maxTC alpha s).info
      (exitPrep maxTC alpha s).current).ppid = (p : Nat) := by
    rw [exitPrep_current, exitPrep_info, Function.update_same]
    exact hpp
  have hglob3 : (exitPrep maxTC alpha s).glob.exitThreadArray p = true := by
    rw [exitPrep_glob, UpdateStats_exitThreadArray]
    exact hex
  unfold Exit
  simp only [hppid3, Int.toNat_natCast, hglob3]
  rw [if_pos (show ((p : Nat) : Int) ≠ -1 by omega)]
  rw [if_neg (show ¬ (true = false) by simp)]
  show (match FindNextThreadToRun (exitPrep maxTC alpha s) with
        | (none, s5) => if term then Except.ok (ExitRes.halted s5)
                        else Except.ok (ExitRes.idleWait s5)
        | (some n, s5) => Except.ok (.dispatched (Schedule n s5).1 (Schedule n s5).2))
      = _
  unfold FindNextThreadToRun
  rw [exitPrep_readyList]
  rcases hr : s.readyList with _ | ⟨n, rest⟩ <;> simp [hr]
  cases term <;> rfl

lemma exit_root_spec (maxTC : Nat) (alpha : ℚ) (term : Bool) (ec : Int)
    (s : SchedState)
    (hpp : (s.info s.current).ppid = -1) :
    Exit maxTC alpha term ec s
      = (match s.readyList with
         | [] => .ok (if term then ExitRes.halted (exitPrep maxTC alpha s)
                      else ExitRes.idleWait (exitPrep maxTC alpha s))
         | n :: rest =>
             .ok (.dispatched
               (Schedule n { exitPrep maxTC alpha s with readyList := rest }).1
               (Schedule n { exitPrep maxTC alpha s with readyList := rest }).2)) := by
  have hppid3 : ((exitPrep maxTC alpha s).info
      (exitPrep maxTC alpha s).current).ppid = -1 := by
    rw [exitPrep_current, exitPrep_info, Function.update_same]
    exact hpp
  unfold Exit
  simp only [hppid3]
  rw [if_neg (show ¬ (-1 : Int) ≠ -1 by simp)]
  show (match FindNextThreadToRun (exitPrep maxTC alpha s) with
        | (none, s5) => if term then Except.ok (ExitRes.halted s5)
                        else Except.ok (ExitRes.idleWait s5)
        | (some n, s5) => Except.ok (.dispatched (Schedule n s5).1 (Schedule n s5).2))
      = _
  unfold FindNextThreadToRun
  rw [exitPrep_readyList]
  rcases hr : s.readyList with _ | ⟨n, rest⟩ <;> simp [hr]
  cases term <;> rfl

/-!
## Sorted insertion into the time-sorted wait queue -/

lemma mem_sortedInsertWQ (t whn : Nat) (l : List (Nat × Nat)) (x : Nat × Nat) :
    x ∈ sortedInsertWQ t whn l ↔ x = (t, whn) ∨ x ∈ l := by
  induction l with
  | nil => simp [sortedInsertWQ]
  | cons e rest ih =>
      by_cases h : e.2 ≤ whn
      · simp only [sortedInsertWQ, if_pos h, List.mem_cons, ih]
        tauto
      · simp only [sortedInsertWQ, if_neg h, List.mem_cons]

lemma sortedInsertWQ_sorted (t whn : Nat) (l : List (Nat × Nat))
    (h : l.Pairwise (fun a b => a.2 ≤ b.2)) :
    (sortedInsertWQ t whn l).Pairwise (fun a b => a.2 ≤ b.2) := by
  induction l with
  | nil => simp [sortedInsertWQ]
  | cons e rest ih =>
      rcases List.pairwise_cons.mp h with ⟨he, hrest⟩
      by_cases hc : e.2 ≤ whn
      · rw [show sortedInsertWQ t whn (e :: rest)
            = e :: sortedInsertWQ t whn rest from by
              simp only [sortedInsertWQ, if_pos hc]]
        refine List.pairwise_cons.mpr ⟨?_, ih hrest⟩
        intro x hx
        rcases (mem_sortedInsertWQ t whn rest x).mp hx with hx1 | hx2
        · subst hx1; simpa using hc
        · exact he x hx2
      · rw [show sortedInsertWQ t whn (e :: rest)
            = (t, whn) :: e :: rest from by
              simp only [sortedInsertWQ, if_neg hc]]
        push_neg at hc
        refine List.pairwise_cons.mpr ⟨?_, List.pairwise_cons.mpr ⟨he, hrest⟩⟩
        intro x hx
        rcases List.mem_cons.mp hx with rfl | hx2
        · simpa using le_of_lt hc
        · exact le_trans (le_of_lt hc) (he x hx2)

lemma sortedInsertWQ_stable (t whn : Nat) (l : List (Nat × Nat)) :
    sortedInsertWQ t whn l
      = l.takeWhile (fun e => decide (e.2 ≤ whn))
          ++ (t, whn) :: l.dropWhile (fun e => decide (e.2 ≤ whn)) := by
  induction l with
  | nil => simp [sortedInsertWQ]
  | cons e rest ih =>
      by_cases h : e.2 ≤ whn
      · simp only [sortedInsertWQ, if_pos h, List.takeWhile_cons, List.dropWhile_cons,
          decide_eq_true h, ih]
        simp
      · simp only [sortedInsertWQ, if_neg h, List.takeWhile_cons, List.dropWhile_cons,
          decide_eq_false h]
        simp

/-!
## C10: the time-sorted wait queue -/

/-- C10: `SortedInsertInWaitQueue` keeps the wait queue in ascending
deadline order; insertion is stable on ties, since the new entry is
placed after exactly the entries whose deadline is `≤ when` (so after
every entry with an equal deadline); and the inserting thread is put to
sleep (status `BLOCKED`, via `PutThreadToSleep`) immediately after its
entry is inserted — in every outcome the resulting wait queue is the
inserted one and the caller is blocked. -/
theorem sortedInsert_waitQueue_spec :
    (∀ (t whn : Nat) (l : List (Nat × Nat)),
       l.Pairwise (fun a b => a.2 ≤ b.2) →
         (sortedInsertWQ t whn l).Pairwise (fun a b => a.2 ≤ b.2)) ∧
    (∀ (t whn : Nat) (l : List (Nat × Nat)),
       sortedInsertWQ t whn l
         = l.takeWhile (fun e => decide (e.2 ≤ whn))
             ++ (t, whn) :: l.dropWhile (fun e => decide (e.2 ≤ whn))) ∧
    (∀ (maxTC : Nat) (alpha : ℚ) (whn : Nat) (s : SchedState),
       s.current ∉ s.readyList →
       (∀ s2 tr, SortedInsertInWaitQueue maxTC alpha whn s = .dispatched s2 tr →
          s2.waitQueue = sortedInsertWQ s.current whn s.waitQueue ∧
          (s2.info s.current).status = .BLOCKED) ∧
       (∀ s2, SortedInsertInWaitQueue maxTC alpha whn s = .idleWait s2 →
          s2.waitQueue = sortedInsertWQ s.current whn s.waitQueue ∧
          (s2.info s.current).status = .BLOCKED)) := by
  refine ⟨sortedInsertWQ_sorted, sortedInsertWQ_stable, ?_⟩
  intro maxTC alpha whn s hcur
  set s1 : SchedState :=
    { s with waitQueue := sortedInsertWQ s.current whn s.waitQueue } with hs1
  set sIns : SchedState :=
    { s1 with
        stats := Function.update s1.stats s1.current
          { s1.stats s1.current with sleepstartTime := s1.glob.totalTicks } }
    with hsIns
  have huq : SortedInsertInWaitQueue maxTC alpha whn s
      = PutThreadToSleep maxTC alpha sIns := rfl
  have hqcur : sIns.current = s.current := rfl
  have hqready : sIns.readyList = s.readyList := rfl
  have hqwait : sIns.waitQueue = sortedInsertWQ s.current whn s.waitQueue := rfl
  have hqinfo : sIns.info = s.info := rfl
  constructor
  · intro s2 tr hdisp
    rw [huq] at hdisp
    rcases hrl : sIns.readyList with _ | ⟨n, rest⟩
    · obtain ⟨s4, heq, _⟩ := putThreadToSleep_idle_spec maxTC alpha sIns hrl
      rw [heq] at hdisp
      exact absurd hdisp (by simp)
    · obtain ⟨s5, tr5, heq, hc5, hinfo5, _, _, hwq5, _, _, _⟩ :=
        putThreadToSleep_dispatch_spec maxTC alpha sIns n rest hrl
      rw [heq] at hdisp
      obtain ⟨h1, h2⟩ : s5 = s2 ∧ tr5 = tr := by
        cases hdisp; exact ⟨rfl, rfl⟩
      subst h1; subst h2
      have hn : n ≠ s.current := by
        intro hcontra
        apply hcur
        rw [← hcontra]
        rw [hqready] at hrl
        simp [hrl]
      refine ⟨by rw [hwq5, hqwait], ?_⟩
      rw [hinfo5, hqcur, hqinfo]
      rw [Function.update_noteq (Ne.symm hn)]
      simp
  · intro s2 hidle
    rw [huq] at hidle
    rcases hrl : sIns.readyList with _ | ⟨n, rest⟩
    · obtain ⟨s4, heq, _, hinfo4, _, _, hwq4, _, _⟩ :=
        putThreadToSleep_idle_spec maxTC alpha sIns hrl
      rw [heq] at hidle
      obtain h1 : s4 = s2 := by cases hidle; rfl
      subst h1
      refine ⟨by rw [hwq4, hqwait], ?_⟩
      rw [hinfo4, hqcur, hqinfo]
      simp
    · obtain ⟨s5, tr5, heq, _⟩ :=
        putThreadToSleep_dispatch_spec maxTC alpha sIns n rest hrl
      rw [heq] at hidle
      exact absurd hidle (by simp)

theorem sortedInsert_waitQueue_spec_witness :
    sampleState.current ∉ sampleState.readyList ∧
    (∀ s2 tr, SortedInsertInWaitQueue 4 (1/2) 30 sampleState = .dispatched s2 tr →
       s2.waitQueue = sortedInsertWQ sampleState.current 30 sampleState.waitQueue ∧
       (s2.info sampleState.current).status = .BLOCKED) :=
  ⟨by decide,
   ((sortedInsert_waitQueue_spec.2.2) 4 (1/2) 30 sampleState (by decide)).1⟩

/-!
## C8: joining with a child -/

/-- C8: `JoinWithChild` on a child slot that already records an exit
returns immediately with the recorded exit code and the state unchanged
(it never blocks); on a slot with no recorded exit it records
`waitchild_id = whichchild` and blocks (status `BLOCKED`) in every
outcome; and the `return childexitcode[whichchild]` executed on wake
yields exactly the code recorded by the child's `SetChildExitCode`. -/
theorem joinWithChild_spec :
    (∀ (maxTC : Nat) (alpha : ℚ) (s : SchedState) (which : Nat),
       (s.info s.current).childExited which = true →
       JoinWithChild maxTC alpha which s
         = .ret ((s.info s.current).childExitCode which) s) ∧
    (∀ (maxTC : Nat) (alpha : ℚ) (s : SchedState) (which : Nat),
       (s.info s.current).childExited which = false →
       s.current ∉ s.readyList →
       (∀ s2 tr, JoinWithChild maxTC alpha which s = .sleeping s2 tr →
          (s2.info s.current).waitchild = (which : Int) ∧
          (s2.info s.current).status = .BLOCKED) ∧
       (∀ s2, JoinWithChild maxTC alpha which s = .idleWait s2 →
          (s2.info s.current).waitchild = (which : Int) ∧
          (s2.info s.current).status = .BLOCKED)) ∧
    (∀ (s : SchedState) (p cpid : Nat) (ec : Int) (i : Nat) (s2 : SchedState),
       (s.info p).childpids.findIdx? (· == cpid) = some i →
       SetChildExitCode p cpid ec s = .ok s2 →
       joinResume p i s2 = ec) := by
  refine ⟨?_, ?_, ?_⟩
  · intro maxTC alpha s which hex
    unfold JoinWithChild
    simp only [hex, if_true]
  · intro maxTC alpha s which hex hcur
    have hjoin : JoinWithChild maxTC alpha which s
        = (match PutThreadToSleep maxTC alpha
            { s with info := Function.update s.info s.current
                               ({ s.info s.current with
                                   waitchild := (which : Int) }) } with
           | .dispatched s2 tr => JoinOutcome.sleeping s2 tr
           | .idleWait s2 => JoinOutcome.idleWait s2) := by
      unfold JoinWithChild
      simp only [hex]
      rfl
    set s1 : SchedState :=
      { s with info := Function.update s.info s.current
                         ({ s.info s.current with
                             waitchild := (which : Int) }) } with hs1
    have hs1ready : s1.readyList = s.readyList := rfl
    have hs1cur : s1.current = s.current := rfl
    have hs1info : s1.info s.current
        = { s.info s.current with waitchild := (which : Int) } := by
      rw [hs1]
      exact Function.update_same _ _ _
    constructor
    · intro s2 tr hsl
      rw [hjoin] at hsl
      rcases hr : s1.readyList with _ | ⟨n, rest⟩
      · obtain ⟨s4, heq, _⟩ := putThreadToSleep_idle_spec maxTC alpha s1 hr
        rw [heq] at hsl
        exact absurd hsl (by simp)
      · obtain ⟨s5, tr5, heq, _, hinfo5, _⟩ :=
          putThreadToSleep_dispatch_spec maxTC alpha s1 n rest hr
        rw [heq] at hsl
        obtain ⟨h1, _⟩ : s5 = s2 ∧ tr5 = tr := by cases hsl; exact ⟨rfl, rfl⟩
        subst h1
        have hn : n ≠ s.current := by
          intro hcontra
          apply hcur
          rw [← hcontra]
          rw [hs1ready] at hr
          simp [hr]
        rw [hinfo5, hs1cur]
        rw [Function.update_noteq (Ne.symm hn), Function.update_same, hs1info]
        exact ⟨rfl, rfl⟩
    · intro s2 hsl
      rw [hjoin] at hsl
      rcases hr : s1.readyList with _ | ⟨n, rest⟩
      · obtain ⟨s4, heq, _, hinfo4, _⟩ :=
          putThreadToSleep_idle_spec maxTC alpha s1 hr
        rw [heq] at hsl
        obtain h1 : s4 = s2 := by cases hsl; rfl
        subst h1
        rw [hinfo4, hs1cur, Function.update_same, hs1info]
        exact ⟨rfl, rfl⟩
      · obtain ⟨s5, tr5, heq, _⟩ :=
          putThreadToSleep_dispatch_spec maxTC alpha s1 n rest hr
        rw [heq] at hsl
        exact absurd hsl (by simp)
  · intro s p cpid ec i s2 hidx hok
    obtain ⟨s2x, heq, _, hcode, _⟩ := setChildExitCode_records p cpid ec s i hidx
    rw [heq] at hok
    obtain h1 : s2x = s2 := by cases hok; rfl
    subst h1
    exact hcode

theorem joinWithChild_spec_witness :
    (sampleJoinState.info sampleJoinState.current).childExited 0 = true ∧
    JoinWithChild 4 (1/2) 0 sampleJoinState
      = .ret ((sampleJoinState.info sampleJoinState.current).childExitCode 0)
          sampleJoinState :=
  ⟨by decide, joinWithChild_spec.1 4 (1/2) sampleJoinState 0 (by decide)⟩

/-!
## C9: exit-code propagation to the parent -/

/-- C9: for an exiting thread with a registered parent `p` (slot `i`),
`Exit` records the exit code in the parent's slot if and only if the
parent has not itself exited (`exitThreadArray[p]`), and when the parent
was blocked waiting specifically on this child (`waitchild_id == i`) the
parent is woken: it ends up `READY` (or already re-dispatched as the
running thread). -/
theorem exit_propagation_spec (maxTC : Nat) (alpha : ℚ) (term : Bool)
    (ec : Int) (s : SchedState) (p i : Nat)
    (hpp : (s.info s.current).ppid = (p : Nat))
    (hne : p ≠ s.current)
    (hidx : (s.info p).childpids.findIdx? (· == s.current) = some i) :
    (s.glob.exitThreadArray p = false →
      ∃ res, Exit maxTC alpha term ec s = .ok res ∧
        ((exitResState res).info p).childExited i = true ∧
        ((exitResState res).info p).childExitCode i = ec) ∧
    (s.glob.exitThreadArray p = true →
      ∃ res, Exit maxTC alpha term ec s = .ok res ∧
        ((exitResState res).info p).childExited = (s.info p).childExited ∧
        ((exitResState res).info p).childExitCode = (s.info p).childExitCode) ∧
    (s.glob.exitThreadArray p = false → (s.info p).waitchild = (i : Int) →
      ∃ res, Exit maxTC alpha term ec s = .ok res ∧
        (((exitResState res).info p).status = .READY ∨
         (exitResState res).current = p)) := by
  refine ⟨?_, ?_, ?_⟩
  · intro hnex
    obtain ⟨s4, _, hexit, hrec1, hrec2, _⟩ :=
      exit_prop_spec maxTC alpha term ec s p i hpp hne hidx hnex
    rcases hr4 : s4.readyList with _ | ⟨n, rest⟩
    · rw [hr4] at hexit
      cases term
      · exact ⟨ExitRes.idleWait s4, by simpa using hexit,
          by simpa [exitResState] using hrec1,
          by simpa [exitResState] using hrec2⟩
      · exact ⟨ExitRes.halted s4, by simpa using hexit,
          by simpa [exitResState] using hrec1,
          by simpa [exitResState] using hrec2⟩
    · rw [hr4] at hexit
      obtain ⟨u1, u2, u3, u4, u5⟩ :=
        update_status_fields s4.info n p .RUNNING
      have hXinfo : ({ s4 with readyList := rest } : SchedState).info
          = s4.info := rfl
      refine ⟨_, hexit, ?_, ?_⟩
      · show (((Schedule n { s4 with readyList := rest }).1).info p).childExited i
            = true
        rw [Schedule_info, hXinfo, u3]
        exact hrec1
      · show (((Schedule n { s4 with readyList := rest }).1).info p).childExitCode i
            = ec
        rw [Schedule_info, hXinfo, u4]
        exact hrec2
  · intro hex
    have hexit := exit_no_prop_spec maxTC alpha term ec s p hpp hex
    have hinfop : (exitPrep maxTC alpha s).info p = s.info p := by
      rw [exitPrep_info, Function.update_noteq hne]
    rcases hr : s.readyList with _ | ⟨n, rest⟩
    · rw [hr] at hexit
      cases term
      · exact ⟨ExitRes.idleWait (exitPrep maxTC alpha s), by simpa using hexit,
          by simp [exitResState, hinfop],
          by simp [exitResState, hinfop]⟩
      · exact ⟨ExitRes.halted (exitPrep maxTC alpha s), by simpa using hexit,
          by simp [exitResState, hinfop],
          by simp [exitResState, hinfop]⟩
    · rw [hr] at hexit
      obtain ⟨u1, u2, u3, u4, u5⟩ :=
        update_status_fields (exitPrep maxTC alpha s).info n p .RUNNING
      have hXinfo : ({ exitPrep maxTC alpha s with readyList := rest }
          : SchedState).info = (exitPrep maxTC alpha s).info := rfl
      refine ⟨_, hexit, ?_, ?_⟩
      · show (((Schedule n { exitPrep maxTC alpha s with readyList := rest }).1).info
            p).childExited = (s.info p).childExited
        rw [Schedule_info, hXinfo, u3, hinfop]
      · show (((Schedule n { exitPrep maxTC alpha s with readyList := rest }).1).info
            p).childExitCode = (s.info p).childExitCode
        rw [Schedule_info, hXinfo, u4, hinfop]
  · intro hnex hw
    obtain ⟨s4, _, hexit, _, _, _, _, _, _, _, hwait, _⟩ :=
      exit_prop_spec maxTC alpha term ec s p i hpp hne hidx hnex
    obtain ⟨hready4, hstat4⟩ := hwait hw
    rcases hsr : s.readyList with _ | ⟨m, rest0⟩
    · have hr4 : s4.readyList = [p] := by rw [hready4, hsr]; rfl
      rw [hr4] at hexit
      refine ⟨_, hexit, Or.inr ?_⟩
      show ((Schedule p { s4 with readyList := [] }).1).current = p
      rw [Schedule_current]
    · have hr4 : s4.readyList = m :: (rest0 ++ [p]) := by
        rw [hready4, hsr]; rfl
      rw [hr4] at hexit
      by_cases hmp : m = p
      · refine ⟨_, hexit, Or.inr ?_⟩
        show ((Schedule m { s4 with readyList := rest0 ++ [p] }).1).current = p
        rw [Schedule_current, hmp]
      · have hXinfo : ({ s4 with readyList := rest0 ++ [p] } : SchedState).info
            = s4.info := rfl
        refine ⟨_, hexit, Or.inl ?_⟩
        show (((Schedule m { s4 with readyList := rest0 ++ [p] }).1).info p).status
            = .READY
        rw [Schedule_info, hXinfo,
          Function.update_noteq (Ne.symm hmp)]
        exact hstat4

theorem exit_propagation_spec_witness :
    ((sampleExitState.info sampleExitState.current).ppid = ((0 : Nat) : Int) ∧
     (0 : Nat) ≠ sampleExitState.current ∧
     (sampleExitState.info 0).childpids.findIdx?
       (· == sampleExitState.current) = some 0 ∧
     sampleExitState.glob.exitThreadArray 0 = false) ∧
    (∃ res, Exit 4 (1/2) false 9 sampleExitState = .ok res ∧
       ((exitResState res).info 0).childExited 0 = true ∧
       ((exitResState res).info 0).childExitCode 0 = 9) :=
  ⟨⟨by decide, by decide, by decide, by decide⟩,
   (exit_propagation_spec 4 (1/2) false 9 sampleExitState 0 0
     (by decide) (by decide) (by decide)).1 (by decide)⟩

/-!
## C3: yielding the CPU -/

lemma TCBInfo_status_eta (inf : TCBInfo) (st : ThreadStatus)
    (h : inf.status = st) : { inf with status := st } = inf := by
  cases inf
  cases h
  rfl

/-- C3: `YieldCPU` by the current (running) thread.  If another thread is
ready (head `n` of the ready list), the caller is moved to `READY` at the
tail of the ready queue, its run-segment statistics are updated
(`UpdateStats`), and the head thread is selected and dispatched
(`current = n`, running).  If no other thread is ready, the call
re-dispatches the very same thread: everything is unchanged except the
recorded statistics. -/
theorem yieldCPU_spec (maxTC : Nat) (alpha : ℚ) (s : SchedState)
    (hrun : (s.info s.current).status = .RUNNING)
    (htbd : s.toBeDestroyed = none) :
    (∀ n rest, s.readyList = n :: rest → s.current ∉ s.readyList →
      ∃ s2, YieldCPU maxTC alpha s = .ok s2 ∧
        s2.current = n ∧ (s2.info n).status = .RUNNING ∧
        s2.readyList = rest ++ [s.current] ∧
        (s2.info s.current).status = .READY ∧
        s2.stats = Function.update s.stats s.current
          (UpdateStats maxTC alpha s.current (s.stats s.current) s.glob).1 ∧
        s2.glob = (UpdateStats maxTC alpha s.current (s.stats s.current) s.glob).2 ∧
        s2.sleepList = s.sleepList ∧ s2.waitQueue = s.waitQueue ∧
        s2.live = s.live) ∧
    (s.readyList = [] →
      ∃ s2, YieldCPU maxTC alpha s = .ok s2 ∧
        s2.current = s.current ∧ s2.info = s.info ∧
        s2.readyList = [] ∧ s2.sleepList = s.sleepList ∧
        s2.waitQueue = s.waitQueue ∧ s2.live = s.live ∧
        s2.toBeDestroyed = none ∧
        s2.stats = Function.update s.stats s.current
          (UpdateStats maxTC alpha s.current (s.stats s.current) s.glob).1 ∧
        s2.glob = (UpdateStats maxTC alpha s.current (s.stats s.current) s.glob).2) := by
  have hTready : (ThreadIsReadyToRun (updateStatsS maxTC alpha s).current
      (updateStatsS maxTC alpha s)).readyList = s.readyList ++ [s.current] := rfl
  constructor
  · intro n rest hr hcur
    have hne : n ≠ s.current := by
      intro hcontra
      exact hcur (by rw [hr, hcontra]; exact List.mem_cons_self _ _)
    have hT2 : (ThreadIsReadyToRun (updateStatsS maxTC alpha s).current
        (updateStatsS maxTC alpha s)).readyList = n :: (rest ++ [s.current]) := by
      rw [hTready, hr]
      rfl
    have hyield : YieldCPU maxTC alpha s
        = .ok (Schedule n
            { ThreadIsReadyToRun (updateStatsS maxTC alpha s).current
                (updateStatsS maxTC alpha s) with
              readyList := rest ++ [s.current] }).1 := by
      unfold YieldCPU
      simp only [FindNextThreadToRun, hT2]
    have hXinfo : ({ ThreadIsReadyToRun (updateStatsS maxTC alpha s).current
        (updateStatsS maxTC alpha s) with
        readyList := rest ++ [s.current] } : SchedState).info
        = Function.update s.info s.current
            { s.info s.current with status := .READY } := rfl
    have hXtbd : ({ ThreadIsReadyToRun (updateStatsS maxTC alpha s).current
        (updateStatsS maxTC alpha s) with
        readyList := rest ++ [s.current] } : SchedState).toBeDestroyed
        = none := htbd
    refine ⟨_, hyield, ?_, ?_, ?_, ?_, ?_, ?_, ?_, ?_, ?_⟩
    · rw [Schedule_current]
    · rw [Schedule_info, hXinfo, Function.update_same]
    · rw [Schedule_readyList]
    · rw [Schedule_info, hXinfo, Function.update_noteq (Ne.symm hne),
        Function.update_same]
    · rw [Schedule_stats]; rfl
    · rw [Schedule_glob]; rfl
    · rw [Schedule_sleepList]; rfl
    · rw [Schedule_waitQueue]; rfl
    · rw [Schedule_live_none _ _ hXtbd]; rfl
  · intro hr
    have hT2 : (ThreadIsReadyToRun (updateStatsS maxTC alpha s).current
        (updateStatsS maxTC alpha s)).readyList = s.current :: [] := by
      rw [hTready, hr]
      rfl
    have hyield : YieldCPU maxTC alpha s
        = .ok (Schedule s.current
            { ThreadIsReadyToRun (updateStatsS maxTC alpha s).current
                (updateStatsS maxTC alpha s) with
              readyList := [] }).1 := by
      unfold YieldCPU
      simp only [FindNextThreadToRun, hT2]
    have hXinfo : ({ ThreadIsReadyToRun (updateStatsS maxTC alpha s).current
        (updateStatsS maxTC alpha s) with
        readyList := ([] : List Nat) } : SchedState).info
        = Function.update s.info s.current
            { s.info s.current with status := .READY } := rfl
    have hXtbd : ({ ThreadIsReadyToRun (updateStatsS maxTC alpha s).current
        (updateStatsS maxTC alpha s) with
        readyList := ([] : List Nat) } : SchedState).toBeDestroyed
        = none := htbd
    refine ⟨_, hyield, ?_, ?_, ?_, ?_, ?_, ?_, ?_, ?_, ?_⟩
    · rw [Schedule_current]
    · rw [Schedule_info, hXinfo]
      funext q
      by_cases hq : q = s.current
      · subst hq
        simp only [Function.update_same]
        exact TCBInfo_status_eta _ _ hrun
      · simp only [Function.update_noteq hq]
    · rw [Schedule_readyList]
    · rw [Schedule_sleepList]; rfl
    · rw [Schedule_waitQueue]; rfl
    · rw [Schedule_live_none _ _ hXtbd]; rfl
    · rw [Schedule_toBeDestroyed]
    · rw [Schedule_stats]; rfl
    · rw [Schedule_glob]; rfl

theorem yieldCPU_spec_witness :
    ((sampleState.info sampleState.current).status = .RUNNING ∧
     sampleState.toBeDestroyed = none ∧
     sampleState.readyList = 1 :: [] ∧
     sampleState.current ∉ sampleState.readyList) ∧
    (∃ s2, YieldCPU 4 (1/2) sampleState = .ok s2 ∧
       s2.current = 1 ∧ (s2.info 1).status = .RUNNING ∧
       s2.readyList = [] ++ [sampleState.current] ∧
       (s2.info sampleState.current).status = .READY ∧
       s2.stats = Function.update sampleState.stats sampleState.current
         (UpdateStats 4 (1/2) sampleState.current
           (sampleState.stats sampleState.current) sampleState.glob).1 ∧
       s2.glob = (UpdateStats 4 (1/2) sampleState.current
         (sampleState.stats sampleState.current) sampleState.glob).2 ∧
       s2.sleepList = sampleState.sleepList ∧
       s2.waitQueue = sampleState.waitQueue ∧
       s2.live = sampleState.live) :=
  ⟨⟨by decide, by decide, by decide, by decide⟩,
   (yieldCPU_spec 4 (1/2) sampleState (by decide) (by decide)).1 1 []
     (by decide) (by decide)⟩

/-!
## C4: destruction happens only after the context transfer -/

lemma exit_noprop_cases (maxTC : Nat) (alpha : ℚ) (term : Bool) (ec : Int)
    (s : SchedState)
    (hexit : Exit maxTC alpha term ec s
      = (match s.readyList with
         | [] => .ok (if term then ExitRes.halted (exitPrep maxTC alpha s)
                      else ExitRes.idleWait (exitPrep maxTC alpha s))
         | n :: rest =>
             .ok (.dispatched
               (Schedule n { exitPrep maxTC alpha s with readyList := rest }).1
               (Schedule n { exitPrep maxTC alpha s with readyList := rest }).2)))
    (hcur : s.current ∉ s.readyList) :
    ∃ res, Exit maxTC alpha term ec s = .ok res ∧
      (∀ s5 tr, res = ExitRes.dispatched s5 tr →
         tr = [.contextSwitch s.current s5.current, .destroy s.current] ∧
         s5.current ≠ s.current ∧ s5.live = s.live.erase s.current ∧
         s5.toBeDestroyed = none) ∧
      (∀ s4x, res = ExitRes.halted s4x ∨ res = ExitRes.idleWait s4x →
         s4x.live = s.live ∧ s4x.toBeDestroyed = some s.current) := by
  rcases hr : s.readyList with _ | ⟨n, rest⟩
  · rw [hr] at hexit
    cases term
    · refine ⟨ExitRes.idleWait (exitPrep maxTC alpha s),
        by simpa using hexit, ?_, ?_⟩
      · intro s5 tr hres
        exact absurd hres (by simp)
      · intro s4x hor
        have h4 : s4x = exitPrep maxTC alpha s := by
          rcases hor with h | h <;> cases h <;> rfl
        subst h4
        exact ⟨exitPrep_live maxTC alpha s, exitPrep_toBeDestroyed maxTC alpha s⟩
    · refine ⟨ExitRes.halted (exitPrep maxTC alpha s),
        by simpa using hexit, ?_, ?_⟩
      · intro s5 tr hres
        exact absurd hres (by simp)
      · intro s4x hor
        have h4 : s4x = exitPrep maxTC alpha s := by
          rcases hor with h | h <;> cases h <;> rfl
        subst h4
        exact ⟨exitPrep_live maxTC alpha s, exitPrep_toBeDestroyed maxTC alpha s⟩
  · rw [hr] at hexit
    have hnn : n ≠ s.current := by
      intro hcontra
      exact hcur (by rw [hr, hcontra]; exact List.mem_cons_self _ _)
    have hXtbd : ({ exitPrep maxTC alpha s with readyList := rest }
        : SchedState).toBeDestroyed = some s.current := rfl
    have htr : (Schedule n { exitPrep maxTC alpha s with readyList := rest }).2
        = [.contextSwitch s.current n, .destroy s.current] := by
      rw [Schedule_trace_some _ _ _ hXtbd]
      rfl
    refine ⟨_, hexit, ?_, ?_⟩
    · intro s5 tr hres
      obtain ⟨h1, h2⟩ : (Schedule n { exitPrep maxTC alpha s with
          readyList := rest }).1 = s5 ∧
          (Schedule n { exitPrep maxTC alpha s with readyList := rest }).2
            = tr := by
        cases hres; exact ⟨rfl, rfl⟩
      subst h1; subst h2
      refine ⟨?_, ?_, ?_, ?_⟩
      · rw [htr, Schedule_current]
      · rw [Schedule_current]; exact hnn
      · rw [Schedule_live_some _ _ _ hXtbd]; rfl
      · rw [Schedule_toBeDestroyed]
    · intro s4x hor
      rcases hor with h | h <;> exact absurd h (by simp)

/-- C4: a thread marked for destruction is destroyed only after the
context transfer to a different thread.  For `FinishThread` (which sets
`threadToBeDestroyed` and sleeps): when a next thread exists, the event
trace is exactly `[contextSwitch old next, destroy old]` — the destroy
event strictly follows the transfer, the destroyed thread is the old
current thread, and the thread executing at destruction time is a
different one; when no next thread exists yet, nothing has been destroyed
(`live` unchanged, the mark still pending).  For `Exit` (which also sets
`threadToBeDestroyed`), every call path is covered: a thread with a
registered, not-yet-exited parent; the root thread (`ppid == -1`, the
`main.cc` batch path); and an orphan whose parent has already exited.
On each of these paths every dispatched outcome carries the same
two-event trace with the destroy last, and every halted/idling outcome
has destroyed nothing. -/
theorem destroy_after_switch_spec (maxTC : Nat) (alpha : ℚ) (s : SchedState) :
    (∀ n rest, s.readyList = n :: rest → s.toBeDestroyed = none →
      s.current ∉ s.readyList →
      ∃ s5, FinishThread maxTC alpha s
          = .dispatched s5 [.contextSwitch s.current n, .destroy s.current] ∧
        s5.current = n ∧ s5.current ≠ s.current ∧
        s5.live = s.live.erase s.current ∧ s5.toBeDestroyed = none) ∧
    (s.readyList = [] →
      ∃ s4, FinishThread maxTC alpha s = .idleWait s4 ∧
        s4.live = s.live ∧ s4.toBeDestroyed = some s.current) ∧
    (∀ (term : Bool) (ec : Int) (p i : Nat),
      (s.info s.current).ppid = (p : Nat) → p ≠ s.current →
      (s.info p).childpids.findIdx? (· == s.current) = some i →
      s.glob.exitThreadArray p = false →
      s.current ∉ s.readyList →
      ∃ res, Exit maxTC alpha term ec s = .ok res ∧
        (∀ s5 tr, res = ExitRes.dispatched s5 tr →
           tr = [.contextSwitch s.current s5.current, .destroy s.current] ∧
           s5.current ≠ s.current ∧ s5.live = s.live.erase s.current ∧
           s5.toBeDestroyed = none) ∧
        (∀ s4x, res = ExitRes.halted s4x ∨ res = ExitRes.idleWait s4x →
           s4x.live = s.live ∧ s4x.toBeDestroyed = some s.current)) ∧
    (∀ (term : Bool) (ec : Int),
      (s.info s.current).ppid = -1 →
      s.current ∉ s.readyList →
      ∃ res, Exit maxTC alpha term ec s = .ok res ∧
        (∀ s5 tr, res = ExitRes.dispatched s5 tr →
           tr = [.contextSwitch s.current s5.current, .destroy s.current] ∧
           s5.current ≠ s.current ∧ s5.live = s.live.erase s.current ∧
           s5.toBeDestroyed = none) ∧
        (∀ s4x, res = ExitRes.halted s4x ∨ res = ExitRes.idleWait s4x →
           s4x.live = s.live ∧ s4x.toBeDestroyed = some s.current)) ∧
    (∀ (term : Bool) (ec : Int) (p : Nat),
      (s.info s.current).ppid = (p : Nat) →
      s.glob.exitThreadArray p = true →
      s.current ∉ s.readyList →
      ∃ res, Exit maxTC alpha term ec s = .ok res ∧
        (∀ s5 tr, res = ExitRes.dispatched s5 tr →
           tr = [.contextSwitch s.current s5.current, .destroy s.current] ∧
           s5.current ≠ s.current ∧ s5.live = s.live.erase s.current ∧
           s5.toBeDestroyed = none) ∧
        (∀ s4x, res = ExitRes.halted s4x ∨ res = ExitRes.idleWait s4x →
           s4x.live = s.live ∧ s4x.toBeDestroyed = some s.current)) := by
  refine ⟨?_, ?_, ?_, ?_, ?_⟩
  · intro n rest hr htbd hcur
    have hne : n ≠ s.current := by
      intro hcontra
      exact hcur (by rw [hr, hcontra]; exact List.mem_cons_self _ _)
    have hrF : ({ s with toBeDestroyed := some s.current } : SchedState).readyList
        = n :: rest := hr
    obtain ⟨s5, tr, heq, hc5, _, _, _, _, htbd5, _, hsome⟩ :=
      putThreadToSleep_dispatch_spec maxTC alpha
        { s with toBeDestroyed := some s.current } n rest hrF
    obtain ⟨hlive5, htr⟩ := hsome s.current rfl
    refine ⟨s5, ?_, hc5, ?_, ?_, htbd5⟩
    · rw [show FinishThread maxTC alpha s = PutThreadToSleep maxTC alpha
          { s with toBeDestroyed := some s.current } from rfl, heq, htr]
    · rw [hc5]; exact hne
    · rw [hlive5]
  · intro hr
    have hrF : ({ s with toBeDestroyed := some s.current } : SchedState).readyList
        = [] := hr
    obtain ⟨s4, heq, _, _, _, _, _, hlive4, htbd4⟩ :=
      putThreadToSleep_idle_spec maxTC alpha
        { s with toBeDestroyed := some s.current } hrF
    refine ⟨s4, ?_, ?_, ?_⟩
    · rw [show FinishThread maxTC alpha s = PutThreadToSleep maxTC alpha
          { s with toBeDestroyed := some s.current } from rfl, heq]
    · rw [hlive4]
    · rw [htbd4]
  · intro term ec p i hpp hne hidx hnex hcur
    obtain ⟨s4, _, hexit, _, _, hcur4, htbd4, hlive4, _, _, hwait, hnwait, _⟩ :=
      exit_prop_spec maxTC alpha term ec s p i hpp hne hidx hnex
    have hsub : ∀ x ∈ s4.readyList, x ∈ s.readyList ∨ x = p := by
      by_cases hw : (s.info p).waitchild = (i : Int)
      · obtain ⟨hready4, _⟩ := hwait hw
        intro x hx
        rw [hready4] at hx
        rcases List.mem_append.mp hx with hx1 | hx2
        · exact Or.inl hx1
        · exact Or.inr (List.mem_singleton.mp hx2)
      · obtain ⟨hready4, _⟩ := hnwait hw
        intro x hx
        rw [hready4] at hx
        exact Or.inl hx
    rcases hr4 : s4.readyList with _ | ⟨n, rest⟩
    · rw [hr4] at hexit
      cases term
      · refine ⟨ExitRes.idleWait s4, by simpa using hexit, ?_, ?_⟩
        · intro s5 tr hres
          exact absurd hres (by simp)
        · intro s4x hor
          have h4 : s4x = s4 := by
            rcases hor with h | h <;> cases h <;> rfl
          subst h4
          exact ⟨hlive4, htbd4⟩
      · refine ⟨ExitRes.halted s4, by simpa using hexit, ?_, ?_⟩
        · intro s5 tr hres
          exact absurd hres (by simp)
        · intro s4x hor
          have h4 : s4x = s4 := by
            rcases hor with h | h <;> cases h <;> rfl
          subst h4
          exact ⟨hlive4, htbd4⟩
    · rw [hr4] at hexit
      have hnn : n ≠ s.current := by
        rcases hsub n (by rw [hr4]; exact List.mem_cons_self _ _) with h | h
        · intro hcontra
          exact hcur (hcontra ▸ h)
        · rw [h]; exact hne
      have hXtbd : ({ s4 with readyList := rest } : SchedState).toBeDestroyed
          = some s.current := htbd4
      have htr : (Schedule n { s4 with readyList := rest }).2
          = [.contextSwitch s.current n, .destroy s.current] := by
        rw [Schedule_trace_some _ _ _ hXtbd]
        rw [show ({ s4 with readyList := rest } : SchedState).current
            = s4.current from rfl, hcur4]
      refine ⟨_, hexit, ?_, ?_⟩
      · intro s5 tr hres
        obtain ⟨h1, h2⟩ : (Schedule n { s4 with readyList := rest }).1 = s5 ∧
            (Schedule n { s4 with readyList := rest }).2 = tr := by
          cases hres; exact ⟨rfl, rfl⟩
        subst h1; subst h2
        refine ⟨?_, ?_, ?_, ?_⟩
        · rw [htr, Schedule_current]
        · rw [Schedule_current]; exact hnn
        · rw [Schedule_live_some _ _ _ hXtbd]
          rw [show ({ s4 with readyList := rest } : SchedState).live
              = s4.live from rfl, hlive4]
        · rw [Schedule_toBeDestroyed]
      · intro s4x hor
        rcases hor with h | h <;> exact absurd h (by simp)
  · intro term ec hpp hcur
    exact exit_noprop_cases maxTC alpha term ec s
      (exit_root_spec maxTC alpha term ec s hpp) hcur
  · intro term ec p hpp hex hcur
    exact exit_noprop_cases maxTC alpha term ec s
      (exit_no_prop_spec maxTC alpha term ec s p hpp hex) hcur

theorem destroy_after_switch_spec_witness :
    (sampleState.readyList = 1 :: [] ∧ sampleState.toBeDestroyed = none ∧
     sampleState.current ∉ sampleState.readyList) ∧
    (∃ s5, FinishThread 4 (1/2) sampleState
        = .dispatched s5 [.contextSwitch sampleState.current 1,
                          .destroy sampleState.current] ∧
      s5.current = 1 ∧ s5.current ≠ sampleState.current ∧
      s5.live = sampleState.live.erase sampleState.current ∧
      s5.toBeDestroyed = none) :=
  ⟨⟨by decide, by decide, by decide⟩,
   (destroy_after_switch_spec 4 (1/2) sampleState).1 1 []
     (by decide) (by decide) (by decide)⟩

/-!
## Invariant preservation machinery -/

lemma schedule_establishes (s : SchedState) (next : Nat)
    (hnodup : s.live.Nodup)
    (hnl : next ∈ s.live)
    (hnorun : ∀ p ∈ s.live, (s.info p).status ≠ .RUNNING)
    (hoccn : occ next s = 0)
    (hocc : ∀ p ∈ s.live, occ p s ≤ 1)
    (hready : ∀ p ∈ s.readyList, p ∈ s.live ∧ (s.info p).status = .READY)
    (hsleep : ∀ p ∈ s.sleepList, p ∈ s.live ∧ (s.info p).status = .BLOCKED)
    (hwait : ∀ pr ∈ s.waitQueue, pr.1 ∈ s.live ∧ (s.info pr.1).status = .BLOCKED)
    (hpend : s.toBeDestroyed = none ∨
      ∃ t, s.toBeDestroyed = some t ∧ occ t s = 0 ∧ t ≠ next) :
    SchedInv (Schedule next s).1 := by
  have hSocc : ∀ q, occ q (Schedule next s).1 = occ q s := by
    intro q
    unfold occ
    rw [Schedule_readyList, Schedule_sleepList, Schedule_waitQueue]
  have hcore : ∀ lv : List Nat,
      lv.Nodup → next ∈ lv → (∀ q, q ∈ lv → q ∈ s.live) →
      (∀ q, q ∈ s.readyList → q ∈ lv) →
      (∀ q, q ∈ s.sleepList → q ∈ lv) →
      (∀ q, q ∈ s.waitQueue.map Prod.fst → q ∈ lv) →
      (Schedule next s).1.live = lv →
      SchedInv (Schedule next s).1 := by
    intro lv hlvd hnextlv hlvsub hrlv hslv hwlv hlveq
    unfold SchedInv
    refine ⟨?_, ?_, ?_, ?_, ?_, ?_, ?_, ?_, ?_, ?_⟩
    · rw [hlveq]; exact hlvd
    · rw [hlveq, Schedule_current]; exact hnextlv
    · rw [Schedule_current, Schedule_info, Function.update_same]
    · intro q hq hqne
      rw [Schedule_current] at hqne
      rw [Schedule_info, Function.update_noteq hqne]
      exact hnorun q (hlvsub q (by rw [← hlveq]; exact hq))
    · rw [Schedule_current, hSocc]
      exact hoccn
    · intro q hq
      rw [hSocc]
      exact hocc q (hlvsub q (by rw [← hlveq]; exact hq))
    · intro q hq
      rw [Schedule_readyList] at hq
      have h2 := hready q hq
      have hqn : q ≠ next := by
        intro hc
        subst hc
        have hpos : 0 < s.readyList.count q := List.count_pos_iff.mpr hq
        unfold occ at hoccn
        omega
      refine ⟨by rw [hlveq]; exact hrlv q hq, ?_⟩
      rw [Schedule_info, Function.update_noteq hqn]
      exact h2.2
    · intro q hq
      rw [Schedule_sleepList] at hq
      have h2 := hsleep q hq
      have hqn : q ≠ next := by
        intro hc
        subst hc
        have hpos : 0 < s.sleepList.count q := List.count_pos_iff.mpr hq
        unfold occ at hoccn
        omega
      refine ⟨by rw [hlveq]; exact hslv q hq, ?_⟩
      rw [Schedule_info, Function.update_noteq hqn]
      exact h2.2
    · intro pr hq
      rw [Schedule_waitQueue] at hq
      have h2 := hwait pr hq
      have hmm : pr.1 ∈ s.waitQueue.map Prod.fst := List.mem_map_of_mem _ hq
      have hqn : pr.1 ≠ next := by
        intro hc
        have hpos : 0 < (s.waitQueue.map Prod.fst).count pr.1 :=
          List.count_pos_iff.mpr hmm
        rw [hc] at hpos
        unfold occ at hoccn
        omega
      refine ⟨by rw [hlveq]; exact hwlv pr.1 hmm, ?_⟩
      rw [Schedule_info, Function.update_noteq hqn]
      exact h2.2
    · rw [Schedule_toBeDestroyed]
  rcases hpend with htb | ⟨t, htb, hocct, htn⟩
  · exact hcore s.live hnodup hnl (fun q h => h)
      (fun q h => (hready q h).1) (fun q h => (hsleep q h).1)
      (fun q h => by
        obtain ⟨pr, hpr, hpr2⟩ := List.mem_map.mp h
        rw [← hpr2]
        exact (hwait pr hpr).1)
      (Schedule_live_none next s htb)
  · have htq : t ∉ s.readyList ∧ t ∉ s.sleepList ∧
        t ∉ s.waitQueue.map Prod.fst := by
      unfold occ at hocct
      refine ⟨?_, ?_, ?_⟩ <;>
        first
          | exact List.count_eq_zero.mp (by omega)
    exact hcore (s.live.erase t) (hnodup.erase t)
      ((List.mem_erase_of_ne (Ne.symm htn)).mpr hnl)
      (fun q h => List.erase_subset _ _ h)
      (fun q h => (List.mem_erase_of_ne
        (by intro hc; subst hc; exact htq.1 h)).mpr (hready q h).1)
      (fun q h => (List.mem_erase_of_ne
        (by intro hc; subst hc; exact htq.2.1 h)).mpr (hsleep q h).1)
      (fun q h => by
        obtain ⟨pr, hpr, hpr2⟩ := List.mem_map.mp h
        refine (List.mem_erase_of_ne ?_).mpr (by rw [← hpr2]; exact (hwait pr hpr).1)
        intro hc
        subst hc
        exact htq.2.2 h)
      (Schedule_live_some next s t htb)

lemma dispatch_after_head (sD : SchedState) (n : Nat) (rest : List Nat)
    (hready : sD.readyList = n :: rest)
    (hnodup : sD.live.Nodup)
    (hnorun : ∀ p ∈ sD.live, (sD.info p).status ≠ .RUNNING)
    (hocc : ∀ p ∈ sD.live, occ p sD ≤ 1)
    (hreadyOK : ∀ p ∈ sD.readyList, p ∈ sD.live ∧ (sD.info p).status = .READY)
    (hsleepOK : ∀ p ∈ sD.sleepList, p ∈ sD.live ∧ (sD.info p).status = .BLOCKED)
    (hwaitOK : ∀ pr ∈ sD.waitQueue, pr.1 ∈ sD.live ∧
      (sD.info pr.1).status = .BLOCKED)
    (hpend : sD.toBeDestroyed = none ∨
      ∃ t, sD.toBeDestroyed = some t ∧ occ t sD = 0) :
    SchedInv (Schedule n { sD with readyList := rest }).1 ∧
    (∀ t, sD.toBeDestroyed = some t →
      t ∉ (Schedule n { sD with readyList := rest }).1.live) := by
  have hnX := hreadyOK n (by rw [hready]; exact List.mem_cons_self _ _)
  have hoccn_le : occ n sD ≤ 1 := hocc n hnX.1
  have hpos : 0 < sD.readyList.count n :=
    List.count_pos_iff.mpr (by rw [hready]; exact List.mem_cons_self _ _)
  have hcnt : sD.readyList.count n = 1 ∧ sD.sleepList.count n = 0 ∧
      (sD.waitQueue.map Prod.fst).count n = 0 := by
    unfold occ at hoccn_le
    refine ⟨?_, ?_, ?_⟩ <;> omega
  have hnrest : n ∉ rest := by
    have h1 := hcnt.1
    rw [hready, List.count_cons] at h1
    simp only [beq_self_eq_true, if_true] at h1
    exact List.count_eq_zero.mp (by omega)
  have hXready : ({ sD with readyList := rest } : SchedState).readyList
      = rest := rfl
  have hXsleep : ({ sD with readyList := rest } : SchedState).sleepList
      = sD.sleepList := rfl
  have hXwait : ({ sD with readyList := rest } : SchedState).waitQueue
      = sD.waitQueue := rfl
  have hoccX_le : ∀ q, occ q ({ sD with readyList := rest } : SchedState)
      ≤ occ q sD := by
    intro q
    unfold occ
    rw [hXready, hXsleep, hXwait, hready, List.count_cons]
    split <;> omega
  have hoccXn : occ n ({ sD with readyList := rest } : SchedState) = 0 := by
    unfold occ
    rw [hXready, hXsleep, hXwait]
    rw [List.count_eq_zero.mpr hnrest, hcnt.2.1, hcnt.2.2]
  constructor
  · apply schedule_establishes
    · exact hnodup
    · exact hnX.1
    · exact hnorun
    · exact hoccXn
    · intro p hp
      exact le_trans (hoccX_le p) (hocc p hp)
    · intro p hp
      rw [hXready] at hp
      exact hreadyOK p (by rw [hready]; exact List.mem_cons_of_mem _ hp)
    · exact hsleepOK
    · exact hwaitOK
    · rcases hpend with htb | ⟨t, htb, hocct⟩
      · exact Or.inl htb
      · refine Or.inr ⟨t, htb, ?_, ?_⟩
        · have := hoccX_le t
          omega
        · intro hc
          subst hc
          unfold occ at hocct
          omega
  · intro t ht
    have htX : ({ sD with readyList := rest } : SchedState).toBeDestroyed
        = some t := ht
    rw [Schedule_live_some _ _ _ htX]
    exact List.Nodup.not_mem_erase hnodup

lemma count_singleton_ite (a b : Nat) :
    ([b] : List Nat).count a = if a = b then 1 else 0 := by
  by_cases h : a = b <;> simp [h]

lemma occ_ThreadIsReadyToRun (t q : Nat) (s : SchedState) :
    occ q (ThreadIsReadyToRun t s) = occ q s + if q = t then 1 else 0 := by
  unfold occ
  rw [ThreadIsReadyToRun_readyList, ThreadIsReadyToRun_sleepList,
    ThreadIsReadyToRun_waitQueue, List.count_append, count_singleton_ite]
  omega

lemma occ_counts_zero (q : Nat) (s : SchedState) (h : occ q s = 0) :
    q ∉ s.readyList ∧ q ∉ s.sleepList ∧ q ∉ s.waitQueue.map Prod.fst := by
  unfold occ at h
  refine ⟨?_, ?_, ?_⟩ <;> exact List.count_eq_zero.mp (by omega)

lemma tirtr_preserves (t : Nat) (s : SchedState) (hinv : SchedInv s)
    (ht : t ∈ s.live) (htc : t ≠ s.current) (hocct : occ t s = 0) :
    SchedInv (ThreadIsReadyToRun t s) := by
  obtain ⟨hnodup, hcl, hcs, hnr, hocc0, hocc1, hF, hG, hH, hP⟩ := hinv
  obtain ⟨htr, hts, htw⟩ := occ_counts_zero t s hocct
  unfold SchedInv
  refine ⟨hnodup, hcl, ?_, ?_, ?_, ?_, ?_, ?_, ?_, hP⟩
  · rw [ThreadIsReadyToRun_current, ThreadIsReadyToRun_info,
      Function.update_noteq (Ne.symm htc)]
    exact hcs
  · intro q hq hqc
    rw [ThreadIsReadyToRun_current] at hqc
    rw [ThreadIsReadyToRun_info]
    by_cases hqt : q = t
    · subst hqt
      rw [Function.update_same]
      simp
    · rw [Function.update_noteq hqt]
      exact hnr q hq hqc
  · rw [ThreadIsReadyToRun_current, occ_ThreadIsReadyToRun,
      if_neg (Ne.symm htc), hocc0]
  · intro q hq
    rw [occ_ThreadIsReadyToRun]
    by_cases hqt : q = t
    · subst hqt
      rw [if_pos rfl, hocct]
    · rw [if_neg hqt]
      have := hocc1 q hq
      omega
  · intro q hq
    rw [ThreadIsReadyToRun_readyList] at hq
    rw [ThreadIsReadyToRun_info]
    rcases List.mem_append.mp hq with hq1 | hq2
    · have h2 := hF q hq1
      have hqt : q ≠ t := by
        intro hc; subst hc; exact htr hq1
      rw [Function.update_noteq hqt]
      exact h2
    · have hqt : q = t := List.mem_singleton.mp hq2
      subst hqt
      rw [Function.update_same]
      exact ⟨ht, rfl⟩
  · intro q hq
    rw [ThreadIsReadyToRun_sleepList] at hq
    have h2 := hG q hq
    have hqt : q ≠ t := by
      intro hc; subst hc; exact hts hq
    rw [ThreadIsReadyToRun_info, Function.update_noteq hqt]
    exact h2
  · intro pr hq
    rw [ThreadIsReadyToRun_waitQueue] at hq
    have h2 := hH pr hq
    have hqt : pr.1 ≠ t := by
      intro hc
      exact htw (hc ▸ List.mem_map_of_mem _ hq)
    rw [ThreadIsReadyToRun_info, Function.update_noteq hqt]
    exact h2

lemma findNext_preserves (s : SchedState) (hinv : SchedInv s) :
    SchedInv (FindNextThreadToRun s).2 := by
  obtain ⟨hnodup, hcl, hcs, hnr, hocc0, hocc1, hF, hG, hH, hP⟩ := hinv
  rcases hr : s.readyList with _ | ⟨n, rest⟩
  · have heq : (FindNextThreadToRun s).2 = s := by
      unfold FindNextThreadToRun
      rw [hr]
    rw [heq]
    exact ⟨hnodup, hcl, hcs, hnr, hocc0, hocc1, hF, hG, hH, hP⟩
  · have heq : (FindNextThreadToRun s).2 = { s with readyList := rest } := by
      unfold FindNextThreadToRun
      rw [hr]
    rw [heq]
    have hocc2 : ∀ q, occ q ({ s with readyList := rest } : SchedState)
        ≤ occ q s := by
      intro q
      unfold occ
      rw [show ({ s with readyList := rest } : SchedState).readyList
          = rest from rfl,
        show ({ s with readyList := rest } : SchedState).sleepList
          = s.sleepList from rfl,
        show ({ s with readyList := rest } : SchedState).waitQueue
          = s.waitQueue from rfl,
        hr, List.count_cons]
      split <;> omega
    unfold SchedInv
    refine ⟨hnodup, hcl, hcs, hnr, ?_, ?_, ?_, hG, hH, hP⟩
    · rw [show ({ s with readyList := rest } : SchedState).current
          = s.current from rfl]
      have := hocc2 s.current
      omega
    · intro q hq
      have := hocc2 q
      have := hocc1 q hq
      omega
    · intro q hq
      exact hF q (by rw [hr]; exact List.mem_cons_of_mem _ hq)

lemma yield_preserves (maxTC : Nat) (alpha : ℚ) (s : SchedState)
    (hinv : SchedInv s) :
    ∃ s2, YieldCPU maxTC alpha s = .ok s2 ∧ SchedInv s2 := by
  obtain ⟨hnodup, hcl, hcs, hnr, hocc0, hocc1, hF, hG, hH, hP⟩ := hinv
  obtain ⟨hcr, hcsl, hcw⟩ := occ_counts_zero s.current s hocc0
  have hDready : (ThreadIsReadyToRun (updateStatsS maxTC alpha s).current
      (updateStatsS maxTC alpha s)).readyList = s.readyList ++ [s.current] := rfl
  have hDinfo : (ThreadIsReadyToRun (updateStatsS maxTC alpha s).current
      (updateStatsS maxTC alpha s)).info
      = Function.update s.info s.current
          { s.info s.current with status := .READY } := rfl
  have hDlive : (ThreadIsReadyToRun (updateStatsS maxTC alpha s).current
      (updateStatsS maxTC alpha s)).live = s.live := rfl
  have hDocc : ∀ q, occ q (ThreadIsReadyToRun (updateStatsS maxTC alpha s).current
      (updateStatsS maxTC alpha s)) = occ q s + if q = s.current then 1 else 0 := by
    intro q
    unfold occ
    rw [hDready, List.count_append, count_singleton_ite]
    rw [show (ThreadIsReadyToRun (updateStatsS maxTC alpha s).current
        (updateStatsS maxTC alpha s)).sleepList = s.sleepList from rfl]
    rw [show (ThreadIsReadyToRun (updateStatsS maxTC alpha s).current
        (updateStatsS maxTC alpha s)).waitQueue = s.waitQueue from rfl]
    omega
  obtain ⟨n, rest, hshape⟩ : ∃ n rest,
      (ThreadIsReadyToRun (updateStatsS maxTC alpha s).current
        (updateStatsS maxTC alpha s)).readyList = n :: rest := by
    rcases hsr : s.readyList with _ | ⟨m, r⟩
    · exact ⟨s.current, [], by rw [hDready, hsr]; rfl⟩
    · exact ⟨m, r ++ [s.current], by rw [hDready, hsr]; rfl⟩
  have hyield : YieldCPU maxTC alpha s
      = .ok (Schedule n { ThreadIsReadyToRun (updateStatsS maxTC alpha s).current
          (updateStatsS maxTC alpha s) with readyList := rest }).1 := by
    unfold YieldCPU
    simp only [FindNextThreadToRun, hshape]
  refine ⟨_, hyield, ?_⟩
  refine (dispatch_after_head _ n rest hshape ?_ ?_ ?_ ?_ ?_ ?_ ?_).1
  · rw [hDlive]; exact hnodup
  · intro p hp
    rw [hDlive] at hp
    rw [hDinfo]
    by_cases hpc : p = s.current
    · subst hpc
      rw [Function.update_same]
      simp
    · rw [Function.update_noteq hpc]
      exact hnr p hp hpc
  · intro p hp
    rw [hDlive] at hp
    rw [hDocc]
    by_cases hpc : p = s.current
    · rw [if_pos hpc, hpc, hocc0]
    · rw [if_neg hpc]
      have := hocc1 p hp
      omega
  · intro p hp
    rw [hDready] at hp
    rw [hDinfo, hDlive]
    rcases List.mem_append.mp hp with hp1 | hp2
    · have hpc : p ≠ s.current := by
        intro hc; subst hc; exact hcr hp1
      rw [Function.update_noteq hpc]
      exact hF p hp1
    · have hpc : p = s.current := List.mem_singleton.mp hp2
      subst hpc
      rw [Function.update_same]
      exact ⟨hcl, rfl⟩
  · intro p hp
    rw [show (ThreadIsReadyToRun (updateStatsS maxTC alpha s).current
        (updateStatsS maxTC alpha s)).sleepList = s.sleepList from rfl] at hp
    have hpc : p ≠ s.current := by
      intro hc; subst hc; exact hcsl hp
    rw [hDinfo, hDlive, Function.update_noteq hpc]
    exact hG p hp
  · intro pr hp
    rw [show (ThreadIsReadyToRun (updateStatsS maxTC alpha s).current
        (updateStatsS maxTC alpha s)).waitQueue = s.waitQueue from rfl] at hp
    have hpc : pr.1 ≠ s.current := by
      intro hc
      exact hcw (hc ▸ List.mem_map_of_mem _ hp)
    rw [hDinfo, hDlive, Function.update_noteq hpc]
    exact hH pr hp
  · exact Or.inl hP

lemma sleep_preserves (maxTC : Nat) (alpha : ℚ) (s : SchedState)
    (hinv : SleepEntryInv s) :
    ∀ s2 tr, PutThreadToSleep maxTC alpha s = .dispatched s2 tr →
      SchedInv s2 := by
  obtain ⟨hnodup, hcl, hcs, hnr, hcnr, hocc1, hF, hG, hH, hP⟩ := hinv
  intro s2 tr hdisp
  rcases hsr : s.readyList with _ | ⟨n, rest⟩
  · obtain ⟨s4, heq, _⟩ := putThreadToSleep_idle_spec maxTC alpha s hsr
    rw [heq] at hdisp
    exact absurd hdisp (by simp)
  · have hshape : (sleepPrep maxTC alpha s).readyList = n :: rest := by
      rw [sleepPrep_readyList, hsr]
    have heq : PutThreadToSleep maxTC alpha s
        = .dispatched (Schedule n { sleepPrep maxTC alpha s with
            readyList := rest }).1
          (Schedule n { sleepPrep maxTC alpha s with readyList := rest }).2 := by
      unfold PutThreadToSleep
      simp only [FindNextThreadToRun, hshape]
    rw [heq] at hdisp
    obtain ⟨h1, h2⟩ : (Schedule n { sleepPrep maxTC alpha s with
        readyList := rest }).1 = s2 ∧
        (Schedule n { sleepPrep maxTC alpha s with readyList := rest }).2 = tr := by
      cases hdisp; exact ⟨rfl, rfl⟩
    subst h1
    refine (dispatch_after_head _ n rest hshape ?_ ?_ ?_ ?_ ?_ ?_ ?_).1
    · rw [sleepPrep_live]; exact hnodup
    · intro p hp
      rw [sleepPrep_live] at hp
      rw [sleepPrep_info]
      by_cases hpc : p = s.current
      · subst hpc
        rw [Function.update_same]
        simp
      · rw [Function.update_noteq hpc]
        exact hnr p hp hpc
    · intro p hp
      rw [sleepPrep_live] at hp
      exact hocc1 p hp
    · intro p hp
      rw [sleepPrep_readyList] at hp
      have hpc : p ≠ s.current := by
        intro hc; subst hc; exact hcnr hp
      rw [sleepPrep_info, sleepPrep_live, Function.update_noteq hpc]
      exact hF p hp
    · intro p hp
      rw [sleepPrep_sleepList] at hp
      rw [sleepPrep_info, sleepPrep_live]
      by_cases hpc : p = s.current
      · subst hpc
        rw [Function.update_same]
        exact ⟨hcl, rfl⟩
      · rw [Function.update_noteq hpc]
        exact ⟨(hG p hp).1, (hG p hp).2 hpc⟩
    · intro pr hp
      rw [sleepPrep_waitQueue] at hp
      rw [sleepPrep_info, sleepPrep_live]
      by_cases hpc : pr.1 = s.current
      · rw [hpc, Function.update_same]
        exact ⟨hcl, rfl⟩
      · rw [Function.update_noteq hpc]
        exact ⟨(hH pr hp).1, (hH pr hp).2 hpc⟩
    · rw [sleepPrep_toBeDestroyed]
      exact Or.inl hP

lemma SchedInv.toSleepEntry (s : SchedState) (hinv : SchedInv s) :
    SleepEntryInv s := by
  obtain ⟨hnodup, hcl, hcs, hnr, hocc0, hocc1, hF, hG, hH, hP⟩ := hinv
  obtain ⟨hcr, _, _⟩ := occ_counts_zero s.current s hocc0
  exact ⟨hnodup, hcl, hcs, hnr, hcr, hocc1, hF,
    fun p hp => ⟨(hG p hp).1, fun _ => (hG p hp).2⟩,
    fun pr hp => ⟨(hH pr hp).1, fun _ => (hH pr hp).2⟩, hP⟩

lemma finish_preserves (maxTC : Nat) (alpha : ℚ) (s : SchedState)
    (hinv : SchedInv s) :
    ∀ s2 tr, FinishThread maxTC alpha s = .dispatched s2 tr →
      SchedInv s2 ∧ s.current ∉ s2.live := by
  obtain ⟨hnodup, hcl, hcs, hnr, hocc0, hocc1, hF, hG, hH, hP⟩ := hinv
  obtain ⟨hcr, hcsl, hcw⟩ := occ_counts_zero s.current s hocc0
  intro s2 tr hdisp
  rcases hsr : s.readyList with _ | ⟨n, rest⟩
  · obtain ⟨s4, heq, _⟩ := putThreadToSleep_idle_spec maxTC alpha
      { s with toBeDestroyed := some s.current } (show _ = [] from hsr)
    rw [show FinishThread maxTC alpha s = PutThreadToSleep maxTC alpha
        { s with toBeDestroyed := some s.current } from rfl, heq] at hdisp
    exact absurd hdisp (by simp)
  · have hshape : (sleepPrep maxTC alpha
        { s with toBeDestroyed := some s.current }).readyList = n :: rest := by
      rw [sleepPrep_readyList]
      exact hsr
    have heq : FinishThread maxTC alpha s
        = .dispatched (Schedule n { sleepPrep maxTC alpha
            { s with toBeDestroyed := some s.current } with
            readyList := rest }).1
          (Schedule n { sleepPrep maxTC alpha
            { s with toBeDestroyed := some s.current } with
            readyList := rest }).2 := by
      unfold FinishThread PutThreadToSleep
      simp only [FindNextThreadToRun, hshape]
    rw [heq] at hdisp
    obtain ⟨h1, h2⟩ : (Schedule n { sleepPrep maxTC alpha
        { s with toBeDestroyed := some s.current } with
        readyList := rest }).1 = s2 ∧ _ = tr := by
      cases hdisp; exact ⟨rfl, rfl⟩
    subst h1
    have hD := dispatch_after_head (sleepPrep maxTC alpha
      { s with toBeDestroyed := some s.current }) n rest hshape ?_ ?_ ?_ ?_ ?_ ?_ ?_
    · refine ⟨hD.1, ?_⟩
      exact hD.2 s.current rfl
    · rw [sleepPrep_live]; exact hnodup
    · intro p hp
      rw [sleepPrep_live] at hp
      rw [sleepPrep_info]
      by_cases hpc : p = s.current
      · subst hpc
        rw [show ({ s with toBeDestroyed := some s.current }
            : SchedState).current = s.current from rfl, Function.update_same]
        simp
      · rw [show ({ s with toBeDestroyed := some s.current }
            : SchedState).current = s.current from rfl,
          Function.update_noteq hpc]
        exact hnr p hp hpc
    · intro p hp
      rw [sleepPrep_live] at hp
      exact hocc1 p hp
    · intro p hp
      rw [sleepPrep_readyList] at hp
      have hpc : p ≠ s.current := by
        intro hc; subst hc; exact hcr hp
      rw [sleepPrep_info, sleepPrep_live,
        show ({ s with toBeDestroyed := some s.current }
          : SchedState).current = s.current from rfl,
        Function.update_noteq hpc]
      exact hF p hp
    · intro p hp
      rw [sleepPrep_sleepList] at hp
      have hpc : p ≠ s.current := by
        intro hc; subst hc; exact hcsl hp
      rw [sleepPrep_info, sleepPrep_live,
        show ({ s with toBeDestroyed := some s.current }
          : SchedState).current = s.current from rfl,
        Function.update_noteq hpc]
      exact hG p hp
    · intro pr hp
      rw [sleepPrep_waitQueue] at hp
      have hpc : pr.1 ≠ s.current := by
        intro hc
        exact hcw (hc ▸ List.mem_map_of_mem _ hp)
      rw [sleepPrep_info, sleepPrep_live,
        show ({ s with toBeDestroyed := some s.current }
          : SchedState).current = s.current from rfl,
        Function.update_noteq hpc]
      exact hH pr hp
    · rw [sleepPrep_toBeDestroyed]
      refine Or.inr ⟨s.current, rfl, ?_⟩
      exact hocc0

lemma exit_noprop_preserves (maxTC : Nat) (alpha : ℚ) (term : Bool) (ec : Int)
    (s : SchedState)
    (hinv : SchedInv s)
    (hexit : Exit maxTC alpha term ec s
      = (match s.readyList with
         | [] => .ok (if term then ExitRes.halted (exitPrep maxTC alpha s)
                      else ExitRes.idleWait (exitPrep maxTC alpha s))
         | n :: rest =>
             .ok (.dispatched
               (Schedule n { exitPrep maxTC alpha s with readyList := rest }).1
               (Schedule n { exitPrep maxTC alpha s with readyList := rest }).2))) :
    ∀ res, Exit maxTC alpha term ec s = .ok res →
      ∀ s2 tr, res = ExitRes.dispatched s2 tr →
        SchedInv s2 ∧ s.current ∉ s2.live := by
  obtain ⟨hnodup, hcl, hcs, hnr, hocc0, hocc1, hF, hG, hH, hP⟩ := hinv
  obtain ⟨hcr, hcsl, hcw⟩ := occ_counts_zero s.current s hocc0
  intro res hres s2 tr hres2
  subst hres2
  rcases hr : s.readyList with _ | ⟨n, rest⟩
  · rw [hr] at hexit
    rw [hexit] at hres
    cases term <;> simp at hres
  · rw [hr] at hexit
    rw [hexit] at hres
    obtain ⟨h1, h2⟩ : (Schedule n { exitPrep maxTC alpha s with
        readyList := rest }).1 = s2 ∧
        (Schedule n { exitPrep maxTC alpha s with readyList := rest }).2
          = tr := by
      cases hres; exact ⟨rfl, rfl⟩
    subst h1
    have hshape : (exitPrep maxTC alpha s).readyList = n :: rest := by
      rw [exitPrep_readyList]
      exact hr
    have hD := dispatch_after_head (exitPrep maxTC alpha s) n rest hshape
      ?_ ?_ ?_ ?_ ?_ ?_ ?_
    · exact ⟨hD.1, hD.2 s.current rfl⟩
    · rw [exitPrep_live]; exact hnodup
    · intro q hq
      rw [exitPrep_live] at hq
      rw [exitPrep_info]
      by_cases hqc : q = s.current
      · subst hqc
        rw [Function.update_same]
        simp
      · rw [Function.update_noteq hqc]
        exact hnr q hq hqc
    · intro q hq
      rw [exitPrep_live] at hq
      exact hocc1 q hq
    · intro q hq
      rw [exitPrep_readyList] at hq
      have hqc : q ≠ s.current := by
        intro hc; subst hc; exact hcr hq
      rw [exitPrep_info, exitPrep_live, Function.update_noteq hqc]
      exact hF q hq
    · intro q hq
      rw [exitPrep_sleepList] at hq
      have hqc : q ≠ s.current := by
        intro hc; subst hc; exact hcsl hq
      rw [exitPrep_info, exitPrep_live, Function.update_noteq hqc]
      exact hG q hq
    · intro pr hq
      rw [exitPrep_waitQueue] at hq
      have hqc : pr.1 ≠ s.current := by
        intro hc
        exact hcw (hc ▸ List.mem_map_of_mem _ hq)
      rw [exitPrep_info, exitPrep_live, Function.update_noteq hqc]
      exact hH pr hq
    · rw [exitPrep_toBeDestroyed]
      refine Or.inr ⟨s.current, rfl, ?_⟩
      exact hocc0

lemma exit_preserves (maxTC : Nat) (alpha : ℚ) (term : Bool) (ec : Int)
    (s : SchedState) (p i : Nat)
    (hinv : SchedInv s)
    (hpp : (s.info s.current).ppid = (p : Nat))
    (hne : p ≠ s.current)
    (hidx : (s.info p).childpids.findIdx? (· == s.current) = some i)
    (hnex : s.glob.exitThreadArray p = false)
    (hpl : p ∈ s.live)
    (hpw : (s.info p).waitchild = (i : Int) →
      (s.info p).status = .BLOCKED ∧ occ p s = 0) :
    ∀ res, Exit maxTC alpha term ec s = .ok res →
      ∀ s2 tr, res = ExitRes.dispatched s2 tr →
        SchedInv s2 ∧ s.current ∉ s2.live := by
  obtain ⟨hnodup, hcl, hcs, hnr, hocc0, hocc1, hF, hG, hH, hP⟩ := hinv
  obtain ⟨hcr, hcsl, hcw⟩ := occ_counts_zero s.current s hocc0
  obtain ⟨s4, _, hexit, _, _, hcur4, htbd4, hlive4, hsl4, hwq4, hwait,
      hnwait, hother⟩ :=
    exit_prop_spec maxTC alpha term ec s p i hpp hne hidx hnex
  intro res hres s2 tr hres2
  subst hres2
  rcases hr4 : s4.readyList with _ | ⟨n, rest⟩
  · rw [hr4] at hexit
    rw [hexit] at hres
    cases term <;> simp at hres
  · rw [hr4] at hexit
    rw [hexit] at hres
    obtain ⟨h1, h2⟩ : (Schedule n { s4 with readyList := rest }).1 = s2 ∧
        (Schedule n { s4 with readyList := rest }).2 = tr := by
      cases hres; exact ⟨rfl, rfl⟩
    subst h1
    have hD : SchedInv (Schedule n { s4 with readyList := rest }).1 ∧
        (∀ t, s4.toBeDestroyed = some t →
          t ∉ (Schedule n { s4 with readyList := rest }).1.live) := by
      by_cases hw : (s.info p).waitchild = (i : Int)
      · obtain ⟨hready4, hpstat⟩ := hwait hw
        obtain ⟨hpbl, hoccp⟩ := hpw hw
        obtain ⟨hpr, hpsl, hpwq⟩ := occ_counts_zero p s hoccp
        have hocc4 : ∀ q, occ q s4 = occ q s + if q = p then 1 else 0 := by
          intro q
          unfold occ
          rw [hready4, hsl4, hwq4, List.count_append, count_singleton_ite]
          omega
        apply dispatch_after_head s4 n rest hr4
        · rw [hlive4]; exact hnodup
        · intro q hq
          rw [hlive4] at hq
          by_cases hqp : q = p
          · subst hqp
            rw [hpstat]
            simp
          · rw [hother q hqp]
            by_cases hqc : q = s.current
            · subst hqc
              rw [Function.update_same]
              simp
            · rw [Function.update_noteq hqc]
              exact hnr q hq hqc
        · intro q hq
          rw [hlive4] at hq
          rw [hocc4]
          by_cases hqp : q = p
          · rw [if_pos hqp, hqp, hoccp]
          · rw [if_neg hqp]
            have := hocc1 q hq
            omega
        · intro q hq
          rw [hready4] at hq
          rcases List.mem_append.mp hq with hq1 | hq2
          · have hqp : q ≠ p := by
              intro hc; subst hc; exact hpr hq1
            have hqc : q ≠ s.current := by
              intro hc; subst hc; exact hcr hq1
            rw [hlive4, hother q hqp, Function.update_noteq hqc]
            exact hF q hq1
          · have hqp : q = p := List.mem_singleton.mp hq2
            subst hqp
            rw [hlive4, hpstat]
            exact ⟨hpl, rfl⟩
        · intro q hq
          rw [hsl4] at hq
          have hqp : q ≠ p := by
            intro hc; subst hc; exact hpsl hq
          have hqc : q ≠ s.current := by
            intro hc; subst hc; exact hcsl hq
          rw [hlive4, hother q hqp, Function.update_noteq hqc]
          exact hG q hq
        · intro pr hq
          rw [hwq4] at hq
          have hqp : pr.1 ≠ p := by
            intro hc
            exact hpwq (hc ▸ List.mem_map_of_mem _ hq)
          have hqc : pr.1 ≠ s.current := by
            intro hc
            exact hcw (hc ▸ List.mem_map_of_mem _ hq)
          rw [hlive4, hother pr.1 hqp, Function.update_noteq hqc]
          exact hH pr hq
        · refine Or.inr ⟨s.current, htbd4, ?_⟩
          rw [hocc4, if_neg (Ne.symm hne), hocc0]
      · obtain ⟨hready4, hpstat⟩ := hnwait hw
        have hocc4 : ∀ q, occ q s4 = occ q s := by
          intro q
          unfold occ
          rw [hready4, hsl4, hwq4]
        apply dispatch_after_head s4 n rest hr4
        · rw [hlive4]; exact hnodup
        · intro q hq
          rw [hlive4] at hq
          by_cases hqp : q = p
          · rw [hqp, hpstat]
            exact hnr p (hqp ▸ hq) hne
          · rw [hother q hqp]
            by_cases hqc : q = s.current
            · subst hqc
              rw [Function.update_same]
              simp
            · rw [Function.update_noteq hqc]
              exact hnr q hq hqc
        · intro q hq
          rw [hlive4] at hq
          rw [hocc4]
          exact hocc1 q hq
        · intro q hq
          rw [hready4] at hq
          have hqc : q ≠ s.current := by
            intro hc; subst hc; exact hcr hq
          by_cases hqp : q = p
          · subst hqp
            rw [hlive4, hpstat]
            exact hF q hq
          · rw [hlive4, hother q hqp, Function.update_noteq hqc]
            exact hF q hq
        · intro q hq
          rw [hsl4] at hq
          have hqc : q ≠ s.current := by
            intro hc; subst hc; exact hcsl hq
          by_cases hqp : q = p
          · subst hqp
            rw [hlive4, hpstat]
            exact hG q hq
          · rw [hlive4, hother q hqp, Function.update_noteq hqc]
            exact hG q hq
        · intro pr hq
          rw [hwq4] at hq
          have hqc : pr.1 ≠ s.current := by
            intro hc
            exact hcw (hc ▸ List.mem_map_of_mem _ hq)
          by_cases hqp : pr.1 = p
          · rw [hlive4, hqp, hpstat]
            exact (hqp ▸ hH pr hq)
          · rw [hlive4, hother pr.1 hqp, Function.update_noteq hqc]
            exact hH pr hq
        · refine Or.inr ⟨s.current, htbd4, ?_⟩
          rw [hocc4, hocc0]
    exact ⟨hD.1, hD.2 s.current htbd4⟩

/-!
## C2: the state/queue-membership invariant -/

/-- C2, counterexample to the claim as stated: the claim's invariant
(`InvClaim`: exactly one `RUNNING` thread, and every live thread is in
*exactly one* of the three queues unless it is `RUNNING`) holds in
`sampleState`, but the operation `PutThreadToSleep` — exactly as invoked
from `JoinWithChild` or `FinishThread`, with the caller on no wait
structure — produces a state in which the blocked caller is in *no*
queue, so `InvClaim` fails afterwards. -/
theorem invClaim_not_preserved :
    InvClaim sampleState ∧ ¬ InvClaim stateAfterSleep := by decide

/-- C2 (amended): the invariant the code maintains (`SchedInv`) weakens
membership to *at most one* queue position: the current thread is live
and the only `RUNNING` one and sits in no queue, no live thread occupies
two queue positions, ready threads are live and `READY`, sleeping-set
and wait-queue threads are live and `BLOCKED` — but a `BLOCKED` thread
may be in no queue at all.  This invariant is preserved by each
operation under its entry conditions: `ThreadIsReadyToRun` on a live,
unqueued, non-current thread; `FindNextThreadToRun`; `Schedule` from its
hand-off precondition (the outgoing thread already demoted, the incoming
thread live and unqueued, any destruction-pending thread unqueued and
different from the incoming one); `YieldCPU`; `PutThreadToSleep` (also
when the caller pre-enqueued itself on one wait structure, as the
synchronization code does); `FinishThread` and `Exit`, whose dispatched
outcomes additionally remove the finished thread from the live set.
`Exit` is covered on every call path: the root thread (`ppid == -1`,
the `main.cc` batch path), an orphan whose parent already exited, and
a thread with a registered live parent (under the registration
invariants a waiting parent satisfies). -/
theorem schedInv_preservation (maxTC : Nat) (alpha : ℚ) :
    (∀ (t : Nat) (s : SchedState), SchedInv s → t ∈ s.live →
      t ≠ s.current → occ t s = 0 → SchedInv (ThreadIsReadyToRun t s)) ∧
    (∀ s : SchedState, SchedInv s → SchedInv (FindNextThreadToRun s).2) ∧
    (∀ (s : SchedState) (next : Nat),
      s.live.Nodup → next ∈ s.live →
      (∀ p ∈ s.live, (s.info p).status ≠ .RUNNING) →
      occ next s = 0 → (∀ p ∈ s.live, occ p s ≤ 1) →
      (∀ p ∈ s.readyList, p ∈ s.live ∧ (s.info p).status = .READY) →
      (∀ p ∈ s.sleepList, p ∈ s.live ∧ (s.info p).status = .BLOCKED) →
      (∀ pr ∈ s.waitQueue, pr.1 ∈ s.live ∧ (s.info pr.1).status = .BLOCKED) →
      (s.toBeDestroyed = none ∨
        ∃ t, s.toBeDestroyed = some t ∧ occ t s = 0 ∧ t ≠ next) →
      SchedInv (Schedule next s).1) ∧
    (∀ s : SchedState, SchedInv s →
      ∃ s2, YieldCPU maxTC alpha s = .ok s2 ∧ SchedInv s2) ∧
    (∀ s : SchedState, SleepEntryInv s →
      ∀ s2 tr, PutThreadToSleep maxTC alpha s = .dispatched s2 tr →
        SchedInv s2) ∧
    (∀ s : SchedState, SchedInv s →
      ∀ s2 tr, FinishThread maxTC alpha s = .dispatched s2 tr →
        SchedInv s2 ∧ s.current ∉ s2.live) ∧
    (∀ (term : Bool) (ec : Int) (s : SchedState) (p i : Nat),
      SchedInv s →
      (s.info s.current).ppid = (p : Nat) → p ≠ s.current →
      (s.info p).childpids.findIdx? (· == s.current) = some i →
      s.glob.exitThreadArray p = false → p ∈ s.live →
      ((s.info p).waitchild = (i : Int) →
        (s.info p).status = .BLOCKED ∧ occ p s = 0) →
      ∀ res, Exit maxTC alpha term ec s = .ok res →
        ∀ s2 tr, res = ExitRes.dispatched s2 tr →
          SchedInv s2 ∧ s.current ∉ s2.live) ∧
    (∀ (term : Bool) (ec : Int) (s : SchedState),
      SchedInv s →
      (s.info s.current).ppid = -1 →
      ∀ res, Exit maxTC alpha term ec s = .ok res →
        ∀ s2 tr, res = ExitRes.dispatched s2 tr →
          SchedInv s2 ∧ s.current ∉ s2.live) ∧
    (∀ (term : Bool) (ec : Int) (s : SchedState) (p : Nat),
      SchedInv s →
      (s.info s.current).ppid = (p : Nat) →
      s.glob.exitThreadArray p = true →
      ∀ res, Exit maxTC alpha term ec s = .ok res →
        ∀ s2 tr, res = ExitRes.dispatched s2 tr →
          SchedInv s2 ∧ s.current ∉ s2.live) :=
  ⟨fun t s hinv ht htc hocct => tirtr_preserves t s hinv ht htc hocct,
   fun s hinv => findNext_preserves s hinv,
   fun s next h1 h2 h3 h4 h5 h6 h7 h8 h9 =>
     schedule_establishes s next h1 h2 h3 h4 h5 h6 h7 h8 h9,
   fun s hinv => yield_preserves maxTC alpha s hinv,
   fun s hinv => sleep_preserves maxTC alpha s hinv,
   fun s hinv => finish_preserves maxTC alpha s hinv,
   fun term ec s p i hinv hpp hne hidx hnex hpl hpw =>
     exit_preserves maxTC alpha term ec s p i hinv hpp hne hidx hnex hpl hpw,
   fun term ec s hinv hpp =>
     exit_noprop_preserves maxTC alpha term ec s hinv
       (exit_root_spec maxTC alpha term ec s hpp),
   fun term ec s p hinv hpp hex =>
     exit_noprop_preserves maxTC alpha term ec s hinv
       (exit_no_prop_spec maxTC alpha term ec s p hpp hex)⟩

theorem schedInv_preservation_witness :
    SchedInv sampleState ∧
    (∃ s2, YieldCPU 4 (1/2) sampleState = .ok s2 ∧ SchedInv s2) :=
  ⟨by decide,
   (schedInv_preservation 4 (1/2)).2.2.2.1 sampleState (by decide)⟩

end NachOS
